import Mathlib

/-!
Verification of the external file unit record engine (flang/runtime/unit.cpp).

The development shallowly embeds the per-unit state machine of
`ExternalFileUnit`.  Machine state is a Lean structure; the buffered frame
layer and the few members declared outside unit.cpp (unit.h / connection.h /
file.h, which are not part of the sources) are modelled from the
specification, each such definition carrying a doc comment that begins with
"Modelled from the spec:".  Byte offsets are modelled as `Int` (the C++
std::int64_t fields), byte counts as `Nat` (std::size_t), and buffers as
functions from offsets to byte values.
-/

set_option maxHeartbeats 1600000

namespace FlangRt

/-- The ACCESS= connection attribute (enum `Access`). -/
inductive Access where
  | Sequential
  | Direct
  | Stream
  deriving DecidableEq, Repr

/-- The data-transfer direction of the unit (enum `Direction`). -/
inductive Direction where
  | Input
  | Output
  | Undetermined
  deriving DecidableEq, Repr

/-- Error conditions surfaced through the I/O error handler.  Named codes
correspond to the `Iostat...` enumerators used in unit.cpp; message-only
`SignalError(...)` calls are distinguished here by a constructor per message
site.  `Crash` models `RUNTIME_CHECK` failure or `Crash(...)`, which aborts
the program. -/
inductive Iostat where
  | Ok
  | End
  | RecordReadOverrun
  | RecordWriteOverrun
  | WriteAfterEndfile
  | BackspaceNonSequential
  | BackspaceAtFirstRecord
  | BadUnformattedRecord
  | ShortRead
  | MissingTerminator
  | BadAsynchronous
  | TooManyAsyncOps
  | NoRecForDirectAccess
  | TruncatedUnformattedHeader
  | TruncatedUnformattedRecord
  | UnformattedHeaderFooterMismatch
  | Crash
  deriving DecidableEq, Repr

/-- Modelled from the spec: the error handler records the first error
signaled (`SignalError`); later signals on an already-failed handler keep
the first status.  The handler's `GetIoStat` is the carried value and
`InError` is "not `Ok`". -/
def signalError (h : Iostat) (e : Iostat) : Iostat :=
  if h = Iostat.Ok then e else h

/-- The complete per-unit state: the positional and formatting fields of
`ExternalFileUnit` and its `ConnectionState`, the asynchronous-ID pool, and
the file-plus-frame model that stands in for the buffered `FileFrame` layer
(`file` maps a byte offset in the file to its value; `fileSize` is the known
size; the frame window starts at file offset `frameAt` and holds `frameLen`
bytes). -/
structure UnitState where
  access : Access := Access.Sequential
  direction : Direction := Direction.Output
  isUnformatted : Option Bool := none
  openRecl : Option Int := none
  recordLength : Option Int := none
  endfileRecordNumber : Option Int := none
  currentRecordNumber : Int := 1
  frameOffsetInFile : Int := 0
  recordOffsetInFrame : Int := 0
  positionInRecord : Int := 0
  furthestPositionInRecord : Int := 0
  leftTabLimit : Option Int := none
  beganReadingRecord : Bool := false
  impliedEndfile : Bool := false
  directAccessRecWasSet : Bool := false
  swapEndianness : Bool := false
  unterminatedRecord : Bool := false
  pinnedFrame : Bool := false
  mayPosition : Bool := true
  mayAsynchronous : Bool := true
  isWindows : Bool := false
  isWindowsTextFileFlag : Bool := false
  asyncIdAvailable : Finset Nat := (Finset.range 64).erase 0
  file : Int → Nat := fun _ => 0
  fileSize : Int := 0
  frameAt : Int := 0
  frameLen : Int := 0

/-- Modelled from the spec: `IsRecordFile()` (connection.h, not in the
sources) — every non-stream unit has records, and a formatted stream is
also viewed as having records; only an unformatted stream is not a record
file. -/
def IsRecordFile (s : UnitState) : Bool :=
  !(s.access = Access.Stream) || !(s.isUnformatted.getD true)

/-- Modelled from the spec: `IsAtEOF()` (unit.h, not in the sources) — a
read has hit the end of file or the endfile record when the endfile record
number is known and the current record has reached it. -/
def IsAtEOF (s : UnitState) : Bool :=
  match s.endfileRecordNumber with
  | some e => decide (e ≤ s.currentRecordNumber)
  | none => false

/-- Modelled from the spec: `IsAfterEndfile()` (unit.h, not in the
sources) — the unit is positioned after an endfile record when the endfile
record number is known and the current record number is beyond it. -/
def IsAfterEndfile (s : UnitState) : Bool :=
  match s.endfileRecordNumber with
  | some e => decide (e < s.currentRecordNumber)
  | none => false

/-- Modelled from the spec: the connection's `BeginRecord()` resets the
per-record cursors at the start of a new record. -/
def BeginRecord (s : UnitState) : UnitState :=
  { s with positionInRecord := 0, furthestPositionInRecord := 0,
           unterminatedRecord := false }

/-- Modelled from the spec: the frame's `ReadFrame(offset, need)` moves the
window to `offset` and makes as many of the requested bytes available as
the file allows, returning how many of them are available. -/
def ReadFrame (s : UnitState) (offset need : Int) : Int × UnitState :=
  let avail := max 0 (s.fileSize - offset)
  let got := min need avail
  (got, { s with frameAt := offset, frameLen := max 0 got })

/-- Modelled from the spec: the frame's `WriteFrame(offset, need)` ensures
a writable window of at least `need` bytes starting at `offset`.  Stores
into the window are modelled as writing through to the file. -/
def WriteFrame (s : UnitState) (offset need : Int) : UnitState :=
  { s with frameAt := offset, frameLen := max 0 need }

/-- Modelled from the spec: the frame's `Flush` pushes buffered writes to
the file; with the write-through store model it does not change the state. -/
def Flush (s : UnitState) : UnitState := s

/-- Modelled from the spec: the frame's `Truncate(offset)` makes `offset`
the file size. -/
def Truncate (s : UnitState) (offset : Int) : UnitState :=
  { s with fileSize := offset }

/-- Modelled from the spec: the frame's `TruncateFrame(offset)` discards
any frame contents at or beyond the file offset `offset`. -/
def TruncateFrame (s : UnitState) (offset : Int) : UnitState :=
  { s with frameLen := max 0 (min s.frameLen (offset - s.frameAt)) }

/-- A write-through store of `len` bytes taken from `src` into the file at
offsets `base ≤ i < base + len` (the effect of a `memcpy`/`memset` into the
writable frame window followed by the frame's flush). -/
def storeBytes (s : UnitState) (base : Int) (src : Nat → Nat) (len : Nat) :
    UnitState :=
  { s with
    file := fun i =>
      if base ≤ i ∧ i < base + (len : Int) then src (i - base).toNat else s.file i,
    fileSize := max s.fileSize (base + (len : Int)) }

/-- The inner loop of `SwapEndianness`: `for (k = 0; k < half; ++k)
std::swap(data[j + k], data[j + elementBytes - 1 - k])`, beginning at loop
index `k`.  `swapAt` is one `std::swap` of two buffer positions. -/
def swapAt (f : Nat → Nat) (a b : Nat) : Nat → Nat :=
  fun i => if i = a then f b else if i = b then f a else f i

/-- See `swapAt`: the remaining inner-loop iterations from index `k` up to
`half`. -/
def swapElemLoop (f : Nat → Nat) (j eb half k : Nat) : Nat → Nat :=
  if k < half then
    swapElemLoop (swapAt f (j + k) (j + eb - 1 - k)) j eb half (k + 1)
  else f
termination_by half - k

/-- The outer loop of `SwapEndianness`: `for (j = 0; j + elementBytes <=
bytes; j += elementBytes)` reverse the element starting at `j`.  The
enclosing `elementBytes > 1` test of the source is repeated in the loop
guard (the loop is only reached when it holds) so that the recursion
terminates. -/
def swapLoop (f : Nat → Nat) (bytes eb j : Nat) : Nat → Nat :=
  if j + eb ≤ bytes ∧ 1 < eb then
    swapLoop (swapElemLoop f j eb (eb / 2) 0) bytes eb (j + eb)
  else f
termination_by bytes - j
decreasing_by omega

/-- `SwapEndianness(data, bytes, elementBytes)` from unit.cpp: byte-reverse
each complete `elementBytes`-sized element lying within the first `bytes`
bytes of the buffer; no effect when `elementBytes <= 1`. -/
def SwapEndianness (data : Nat → Nat) (bytes elementBytes : Nat) : Nat → Nat :=
  if 1 < elementBytes then swapLoop data bytes elementBytes 0 else data

/-- In-place `SwapEndianness` applied to the `bytes`-long region of the
file that starts at offset `base` (the effect of the swap on the frame
window after an `Emit` copy). -/
def swapFileRegion (s : UnitState) (base : Int) (bytes eb : Nat) : UnitState :=
  { s with
    file := fun i =>
      if base ≤ i ∧ i < base + (bytes : Int) then
        SwapEndianness (fun j => s.file (base + (j : Int))) bytes eb (i - base).toNat
      else s.file i }

/-- The little-endian byte image of a 32-bit unsigned value: byte `j` of
the in-memory representation of `uint32_t n` on the (little-endian) host. -/
def word32le (n : Nat) : Nat → Nat :=
  fun j => n / 256 ^ j % 256

/-- The `std::int32_t` whose in-memory bytes on the (little-endian) host
are `b0 b1 b2 b3`. -/
def int32OfLeBytes (b0 b1 b2 b3 : Nat) : Int :=
  let u : Nat := b0 % 256 + 256 * (b1 % 256) + 65536 * (b2 % 256) +
    16777216 * (b3 % 256)
  if u < 2 ^ 31 then (u : Int) else (u : Int) - 2 ^ 32

/-- `ReadHeaderOrFooter(frameOffset)`: copy four bytes out of the frame at
`frameOffset`, byte-swap them when the unit converts endianness, and view
them as an `std::int32_t`. -/
def ReadHeaderOrFooter (s : UnitState) (frameOffset : Int) : Int :=
  let b : Nat → Nat := fun j => s.file (s.frameAt + frameOffset + (j : Int))
  let b := if s.swapEndianness then SwapEndianness b 4 4 else b
  int32OfLeBytes (b 0) (b 1) (b 2) (b 3)

/-- `CheckDirectAccess(handler)`: on a direct-access unit (which must have
a record length — `RUNTIME_CHECK`), signal "No REC= was specified for a
data transfer with ACCESS='DIRECT'" and return false when no REC= was
specified; otherwise return true. -/
def CheckDirectAccess (s : UnitState) (h : Iostat) : Bool × Iostat :=
  if s.access = Access.Direct then
    if s.openRecl.isSome then
      if !s.directAccessRecWasSet then
        (false, signalError h Iostat.NoRecForDirectAccess)
      else (true, h)
    else (false, Iostat.Crash)
  else (true, h)

/-- `HitEndOnRead(handler)`: signal END and, for a non-direct record file,
note that the endfile record is the current record. -/
def HitEndOnRead (s : UnitState) (h : Iostat) : UnitState × Iostat :=
  let h := signalError h Iostat.End
  if IsRecordFile s && !(s.access = Access.Direct) then
    ({ s with endfileRecordNumber := some s.currentRecordNumber }, h)
  else (s, h)

/-- The record-termination allowance `extra` computed by `Emit` when the
unit has a fixed `openRecl`: 8 bytes of header plus footer for sequential
unformatted records, the line ending (1 byte, or 2 on a Windows host when
the file is not in Windows text mode) for sequential formatted records,
nothing otherwise. -/
def emitExtra (s : UnitState) : Int :=
  if s.access = Access.Sequential then
    if s.isUnformatted.getD false then 8
    else if s.isWindows ∧ !s.isWindowsTextFileFlag then 2 else 1
  else 0

/-- The fixed-length-record overrun test of `Emit`: with `openRecl` set,
whether `furthestAfter` exceeds the record length plus the termination
allowance. -/
def emitOverrun (s : UnitState) (furthestAfter : Int) : Bool :=
  match s.openRecl with
  | some recl => decide (furthestAfter > emitExtra s + recl)
  | none => false

/-- `Emit(data, bytes, elementBytes, handler)` from unit.cpp: the
fixed-record overrun check against `openRecl` plus `emitExtra`, the reset
of a stale `recordLength`, the write-after-endfile check, the (ignored)
direct-access REC= check, then the frame write: ensure the window, pad any
gap between the high-water mark and the cursor with spaces, copy the data
at the cursor, optionally byte-swap the copied range, and advance the
cursor and high-water mark. -/
def Emit (s : UnitState) (h : Iostat) (data : Nat → Nat)
    (bytes elementBytes : Nat) : Bool × UnitState × Iostat :=
  let furthestAfter : Int :=
    max s.furthestPositionInRecord (s.positionInRecord + (bytes : Int))
  if emitOverrun s furthestAfter then
    (false, s, signalError h Iostat.RecordWriteOverrun)
  else
    let s := if s.recordLength.isSome then
        { s with recordLength := none, beganReadingRecord := false }
      else s
    if IsAfterEndfile s then (false, s, signalError h Iostat.WriteAfterEndfile)
    else
      let h := (CheckDirectAccess s h).2
      if h = Iostat.Crash then (false, s, h)
      else
        let s := WriteFrame s s.frameOffsetInFile
          (s.recordOffsetInFrame + furthestAfter)
        let s := if s.positionInRecord > s.furthestPositionInRecord then
            storeBytes s
              (s.frameAt + s.recordOffsetInFrame + s.furthestPositionInRecord)
              (fun _ => 32)
              (s.positionInRecord - s.furthestPositionInRecord).toNat
          else s
        let base := s.frameAt + s.recordOffsetInFrame + s.positionInRecord
        let s := storeBytes s base data bytes
        let s := if s.swapEndianness then swapFileRegion s base bytes elementBytes
          else s
        (true,
         { s with positionInRecord := s.positionInRecord + (bytes : Int),
                  furthestPositionInRecord := furthestAfter }, h)

/-- `Receive(data, bytes, elementBytes, handler)` from unit.cpp: requires
input direction (`RUNTIME_CHECK`), checks a known record length for
overrun, reads the frame, and on success copies (and optionally
byte-swaps) the record bytes at the cursor — returned here as the second
component — and advances the cursor and high-water mark. -/
def Receive (s : UnitState) (h : Iostat) (bytes elementBytes : Nat) :
    Bool × Option (Nat → Nat) × UnitState × Iostat :=
  if !(s.direction = Direction.Input) then (false, none, s, Iostat.Crash)
  else
    let furthestAfter : Int :=
      max s.furthestPositionInRecord (s.positionInRecord + (bytes : Int))
    if furthestAfter > s.recordLength.getD furthestAfter then
      (false, none, s, signalError h Iostat.RecordReadOverrun)
    else
      let need := s.recordOffsetInFrame + furthestAfter
      let (got, s) := ReadFrame s s.frameOffsetInFile need
      if got ≥ need then
        let src : Nat → Nat := fun j =>
          s.file (s.frameAt + s.recordOffsetInFrame + s.positionInRecord + (j : Int))
        let out := if s.swapEndianness then SwapEndianness src bytes elementBytes
          else src
        (true, some out,
         { s with positionInRecord := s.positionInRecord + (bytes : Int),
                  furthestPositionInRecord := furthestAfter }, h)
      else
        let (s, h) := HitEndOnRead s h
        (false, none, s, h)

/-- Modelled from the spec: `FindCharacter(data, ch, bytes)` (tools, not in
the sources) — the offset of the first occurrence of `ch` in the first
`bytes` bytes, scanning forward from offset `i`. -/
def findCharAux (f : Nat → Nat) (ch : Nat) : Nat → Nat → Option Nat
  | _, 0 => none
  | i, r + 1 => if f i = ch then some i else findCharAux f ch (i + 1) r

/-- See `findCharAux`: the search starts at offset 0. -/
def FindCharacter (f : Nat → Nat) (ch bytes : Nat) : Option Nat :=
  findCharAux f ch 0 bytes

/-- `SetVariableFormattedRecordLength()` from unit.cpp: when the record
length is already known or access is direct, succeed; otherwise search the
frame from the record start for a newline, set `recordLength` to its
distance, dropping one trailing carriage return when the length is
positive; fail when no newline is in the frame. -/
def SetVariableFormattedRecordLength (s : UnitState) : Bool × UnitState :=
  if s.recordLength.isSome ∨ s.access = Access.Direct then (true, s)
  else if s.frameLen > s.recordOffsetInFrame then
    let record : Nat → Nat := fun i =>
      s.file (s.frameAt + s.recordOffsetInFrame + (i : Int))
    let bytes := (s.frameLen - s.recordOffsetInFrame).toNat
    match FindCharacter record 10 bytes with
    | some nl =>
      let rl : Int := (nl : Int)
      let rl := if rl > 0 ∧ record (nl - 1) = 13 then rl - 1 else rl
      (true, { s with recordLength := some rl })
    | none => (false, s)
  else (false, s)

/-- `BeginSequentialVariableUnformattedInputRecord(handler)` from unit.cpp:
read the 4-byte record header (hit end when nothing of the record is
present, or diagnose a truncated header), set `recordLength` to 4 plus the
header value, read through the footer (diagnosing EOF inside the record),
and require the footer to equal the header; in every case the cursor is
finally placed just after the header. -/
def BeginSequentialVariableUnformattedInputRecord (s : UnitState) (h : Iostat) :
    UnitState × Iostat :=
  let need := s.recordOffsetInFrame + 4
  let (got, s) := ReadFrame s s.frameOffsetInFile need
  let (s, h) :=
    if got < need then
      if got = s.recordOffsetInFrame then HitEndOnRead s h
      else (s, signalError h Iostat.TruncatedUnformattedHeader)
    else
      let header := ReadHeaderOrFooter s s.recordOffsetInFrame
      let s := { s with recordLength := some (4 + header) }
      let need := s.recordOffsetInFrame + (4 + header) + 4
      let (got, s) := ReadFrame s s.frameOffsetInFile need
      if got < need then (s, signalError h Iostat.TruncatedUnformattedRecord)
      else
        let footer := ReadHeaderOrFooter s (s.recordOffsetInFrame + (4 + header))
        if !(footer = header) then
          (s, signalError h Iostat.UnformattedHeaderFooterMismatch)
        else (s, h)
  ({ s with positionInRecord := 4 }, h)

/-- The grow-by-one loop of `BeginVariableFormattedInputRecord`, with an
explicit fuel argument for termination (each continued iteration makes the
in-frame record length strictly longer, so the byte count remaining in the
file bounds the iterations; fuel exhaustion, which no reachable state
produces, is reported as a crash). -/
def beginVarFmtLoop (s : UnitState) (h : Iostat) (length : Int) :
    Nat → UnitState × Iostat
  | 0 => (s, Iostat.Crash)
  | fuel + 1 =>
    let need := length + 1
    let (got, s) := ReadFrame s s.frameOffsetInFile (s.recordOffsetInFrame + need)
    let length := got - s.recordOffsetInFrame
    if length < need then
      if length > 0 then
        ({ s with recordLength := some length, unterminatedRecord := true }, h)
      else HitEndOnRead s h
    else
      let (found, s) := SetVariableFormattedRecordLength s
      if found then (s, h) else beginVarFmtLoop s h length fuel

/-- `BeginVariableFormattedInputRecord(handler)` from unit.cpp: grow the
frame a byte at a time until the newline terminator is found, accepting a
final unterminated record and hitting end when no byte is available.  (The
flushing of the default and error output units before reading the default
input unit is a cross-unit effect outside this single-unit model.) -/
def BeginVariableFormattedInputRecord (s : UnitState) (h : Iostat) :
    UnitState × Iostat :=
  beginVarFmtLoop s h 0 ((max 0 (s.fileSize - s.frameOffsetInFile)).toNat + 2)

/-- `BeginReadingRecord(handler)` from unit.cpp: requires input direction
(`RUNTIME_CHECK`); once per record, read a direct-access record of exactly
`openRecl` bytes, or for other accesses clear the record length and, unless
at EOF, delegate to the sequential-unformatted or variable-formatted record
reader; finally `RUNTIME_CHECK` that a record length is known for record
files unless the handler is in error, and report success as "handler not in
error". -/
def BeginReadingRecord (s : UnitState) (h : Iostat) :
    Bool × UnitState × Iostat :=
  if !(s.direction = Direction.Input) then (false, s, Iostat.Crash)
  else
    let (s, h) :=
      if !s.beganReadingRecord then
        let s := { s with beganReadingRecord := true }
        if s.access = Access.Direct then
          let h := (CheckDirectAccess s h).2
          if h = Iostat.Crash then (s, h)
          else
            match s.openRecl with
            | none => (s, Iostat.Crash)
            | some recl =>
              let need := s.recordOffsetInFrame + recl
              let (got, s) := ReadFrame s s.frameOffsetInFile need
              if got ≥ need then ({ s with recordLength := some recl }, h)
              else HitEndOnRead { s with recordLength := none } h
        else
          let s := { s with recordLength := none }
          if IsAtEOF s then (s, signalError h Iostat.End)
          else
            match s.isUnformatted with
            | none => (s, Iostat.Crash)
            | some unf =>
              if unf then
                if s.access = Access.Sequential then
                  BeginSequentialVariableUnformattedInputRecord s h
                else (s, h)
              else BeginVariableFormattedInputRecord s h
      else (s, h)
    if s.recordLength.isSome ∨ !(IsRecordFile s) ∨ !(h = Iostat.Ok) then
      (h = Iostat.Ok, s, h)
    else (false, s, Iostat.Crash)

/-- `FinishReadingRecord(handler)` from unit.cpp: requires input direction
and a begun record (`RUNTIME_CHECK`); after END, or in a record file with
no known record length, only step the current record number; otherwise for
record files move the record offset past the record and, for non-direct
units, either keep the unformatted footer in the frame or skip the
formatted terminator and fold the offset into the file position, then step
the record number; for an unformatted stream just advance the file
position.  A new record then begins. -/
def FinishReadingRecord (s : UnitState) (h : Iostat) : UnitState × Iostat :=
  if !(s.direction = Direction.Input ∧ s.beganReadingRecord) then
    (s, Iostat.Crash)
  else
    let s := { s with beganReadingRecord := false }
    if h = Iostat.End ∨ (IsRecordFile s ∧ s.recordLength = none) then
      (BeginRecord { s with currentRecordNumber := s.currentRecordNumber + 1 }, h)
    else if IsRecordFile s then
      let s := { s with
        recordOffsetInFrame := s.recordOffsetInFrame + s.recordLength.getD 0 }
      let step : Option UnitState :=
        if !(s.access = Access.Direct) then
          match s.isUnformatted with
          | none => none
          | some unf =>
            let s := { s with recordLength := none }
            if unf then
              some { s with
                frameOffsetInFile := s.frameOffsetInFile + s.recordOffsetInFrame,
                recordOffsetInFrame := 4 }
            else
              let s := if s.frameLen > s.recordOffsetInFrame ∧
                  s.file (s.frameAt + s.recordOffsetInFrame) = 13 then
                  { s with recordOffsetInFrame := s.recordOffsetInFrame + 1 }
                else s
              let s := if s.frameLen > s.recordOffsetInFrame ∧
                  s.file (s.frameAt + s.recordOffsetInFrame) = 10 then
                  { s with recordOffsetInFrame := s.recordOffsetInFrame + 1 }
                else s
              if !s.pinnedFrame ∨ s.mayPosition then
                some { s with
                  frameOffsetInFile := s.frameOffsetInFile + s.recordOffsetInFrame,
                  recordOffsetInFrame := 0 }
              else some s
        else some s
      match step with
      | none => (s, Iostat.Crash)
      | some s =>
        (BeginRecord { s with currentRecordNumber := s.currentRecordNumber + 1 }, h)
    else
      let fp := max s.furthestPositionInRecord s.positionInRecord
      let s := { s with furthestPositionInRecord := fp }
      let fo := s.frameOffsetInFile + s.recordOffsetInFrame + fp
      (BeginRecord { s with frameOffsetInFile := fo }, h)

/-- `CommitWrites()` from unit.cpp: fold the record offset and the record
length (or the high-water mark when the length is unknown) into the file
offset and begin a new record. -/
def CommitWrites (s : UnitState) : UnitState :=
  BeginRecord { s with
    frameOffsetInFile := s.frameOffsetInFile + s.recordOffsetInFrame +
      s.recordLength.getD s.furthestPositionInRecord,
    recordOffsetInFrame := 0 }

/-- The tail of output `AdvanceRecord`: clear the non-advancing tab limit,
fail after an endfile record, otherwise commit the writes, step the record
number, and for non-direct units note the pending implied endfile and
forget a reached endfile record number. -/
def advanceOutputTail (ok : Bool) (s : UnitState) (h : Iostat) :
    Bool × UnitState × Iostat :=
  let s := { s with leftTabLimit := none }
  if IsAfterEndfile s then (false, s, h)
  else
    let s := CommitWrites s
    let s := { s with currentRecordNumber := s.currentRecordNumber + 1 }
    let s :=
      if !(s.access = Access.Direct) then
        let s := { s with impliedEndfile := IsRecordFile s }
        if IsAtEOF s then { s with endfileRecordNumber := none } else s
      else s
    (ok, s, h)

/-- `AdvanceRecord(handler)` from unit.cpp.  Input: finish then begin a
record.  Output (formatting must be known — `RUNTIME_CHECK`): move the
cursor to the high-water mark; pad a short direct-access record with NUL or
spaces; for sequential unformatted records emit the 4-byte length footer
and then rewind the cursor and emit the same word over the reserved header
bytes (the second emit is skipped when the first fails); do nothing for an
unformatted stream; for formatted records return success emitting nothing
after an error with an empty record, and otherwise emit the line ending;
then the common output tail `advanceOutputTail`. -/
def AdvanceRecord (s : UnitState) (h : Iostat) : Bool × UnitState × Iostat :=
  if s.direction = Direction.Input then
    let (s, h) := FinishReadingRecord s h
    BeginReadingRecord s h
  else
    match s.isUnformatted with
    | none => (false, s, Iostat.Crash)
    | some unf =>
      let s := { s with positionInRecord := s.furthestPositionInRecord }
      if s.access = Access.Direct then
        let s :=
          if s.furthestPositionInRecord <
              s.openRecl.getD s.furthestPositionInRecord then
            let s := WriteFrame s s.frameOffsetInFile
              (s.recordOffsetInFrame + s.openRecl.getD 0)
            let s := storeBytes s
              (s.frameAt + s.recordOffsetInFrame + s.furthestPositionInRecord)
              (fun _ => if unf then 0 else 32)
              (s.openRecl.getD 0 - s.furthestPositionInRecord).toNat
            { s with furthestPositionInRecord := s.openRecl.getD 0 }
          else s
        advanceOutputTail true s h
      else if unf then
        if s.access = Access.Sequential then
          let lengthWord : Nat :=
            ((s.furthestPositionInRecord - 4) % (2 ^ 32 : Int)).toNat
          let (ok1, s, h) := Emit s h (word32le lengthWord) 4 4
          let s := { s with positionInRecord := 0 }
          if ok1 then
            let (ok2, s, h) := Emit s h (word32le lengthWord) 4 4
            advanceOutputTail ok2 s h
          else advanceOutputTail false s h
        else advanceOutputTail true s h
      else if !(h = Iostat.Ok) ∧ s.furthestPositionInRecord = 0 then
        (true, s, h)
      else
        let win := s.isWindows ∧ !s.isWindowsTextFileFlag
        let lineEnding : Nat → Nat :=
          if win then fun j => if j = 0 then 13 else 10 else fun _ => 10
        let lineEndingBytes : Nat := if win then 2 else 1
        let (ok, s, h) := Emit s h lineEnding lineEndingBytes 1
        advanceOutputTail ok s h

/-- `FlushOutput(handler)` from unit.cpp: when the unit cannot position and
the committed file offset lies inside the frame window, commit the writes
and clear the tab limit before flushing. -/
def FlushOutput (s : UnitState) (h : Iostat) : UnitState × Iostat :=
  let s :=
    if !s.mayPosition then
      if s.frameOffsetInFile ≥ s.frameAt ∧
          s.frameOffsetInFile < s.frameAt + s.frameLen then
        { CommitWrites s with leftTabLimit := none }
      else s
    else s
  (Flush s, h)

/-- `DoEndfile(handler)` from unit.cpp: for a non-direct record file,
absorb the cursor into the high-water mark, account for a pending
non-advancing record, and record the endfile record number; commit the
frame position, flush, truncate the file and the frame there, and begin a
new record with no implied endfile pending. -/
def DoEndfile (s : UnitState) (h : Iostat) : UnitState × Iostat :=
  let s :=
    if IsRecordFile s && !(s.access = Access.Direct) then
      let fp := max s.positionInRecord s.furthestPositionInRecord
      let s := { s with furthestPositionInRecord := fp }
      let s := if s.leftTabLimit.isSome then
          { s with leftTabLimit := none,
                   currentRecordNumber := s.currentRecordNumber + 1 }
        else s
      { s with endfileRecordNumber := some s.currentRecordNumber }
    else s
  let s := { s with
    frameOffsetInFile := s.frameOffsetInFile + s.recordOffsetInFrame +
      s.furthestPositionInRecord,
    recordOffsetInFrame := 0 }
  let (s, h) := FlushOutput s h
  let s := Truncate s s.frameOffsetInFile
  let s := TruncateFrame s s.frameOffsetInFile
  ({ BeginRecord s with impliedEndfile := false }, h)

/-- `DoImpliedEndfile(handler)` from unit.cpp: complete a pending
non-advancing output record with `AdvanceRecord`, then perform the pending
implied endfile when positioning is possible. -/
def DoImpliedEndfile (s : UnitState) (h : Iostat) : UnitState × Iostat :=
  let (s, h) :=
    if !s.impliedEndfile ∧ s.direction = Direction.Output ∧ IsRecordFile s ∧
        !(s.access = Access.Direct) ∧ s.leftTabLimit.isSome then
      let (_, s, h) := AdvanceRecord s h
      (s, h)
    else (s, h)
  if s.impliedEndfile then
    let s := { s with impliedEndfile := false }
    if !(s.access = Access.Direct) ∧ IsRecordFile s ∧ s.mayPosition then
      DoEndfile s h
    else (s, h)
  else (s, h)

/-- `BackspaceFixedRecord(handler)` from unit.cpp: step the file offset
back one fixed record, or signal backspace-at-first-record. -/
def BackspaceFixedRecord (s : UnitState) (h : Iostat) : UnitState × Iostat :=
  match s.openRecl with
  | none => (s, Iostat.Crash)
  | some recl =>
    if s.frameOffsetInFile < recl then
      (s, signalError h Iostat.BackspaceAtFirstRecord)
    else ({ s with frameOffsetInFile := s.frameOffsetInFile - recl }, h)

/-- `BackspaceVariableUnformattedRecord(handler)` from unit.cpp: fold the
record offset into the file offset, read the 4-byte footer of the previous
record just before the current position, step back over that record (its
length plus header and footer), re-read it, and require its header to
match the footer. -/
def BackspaceVariableUnformattedRecord (s : UnitState) (h : Iostat) :
    UnitState × Iostat :=
  let s := { s with
    frameOffsetInFile := s.frameOffsetInFile + s.recordOffsetInFrame,
    recordOffsetInFrame := 0 }
  if s.frameOffsetInFile ≤ 4 then
    (s, signalError h Iostat.BackspaceAtFirstRecord)
  else
    let (got, s) := ReadFrame s (s.frameOffsetInFile - 4) 4
    if got < 4 then (s, signalError h Iostat.ShortRead)
    else
      let s := { s with recordLength := some (ReadHeaderOrFooter s 0) }
      let rl := s.recordLength.getD 0
      if s.frameOffsetInFile < rl + 8 then
        (s, signalError h Iostat.BadUnformattedRecord)
      else
        let s := { s with frameOffsetInFile := s.frameOffsetInFile - (rl + 8) }
        let need := s.recordOffsetInFrame + 4 + rl
        let (got, s) := ReadFrame s s.frameOffsetInFile need
        if got < need then (s, signalError h Iostat.ShortRead)
        else
          let header := ReadHeaderOrFooter s s.recordOffsetInFrame
          if !(header = rl) then (s, signalError h Iostat.BadUnformattedRecord)
          else (s, h)

/-- `FindLastNewline(str, length)` from unit.cpp: the offset of the last
newline among offsets `length` down to 0 of the buffer (the scan includes
offset `length` itself). -/
def FindLastNewline (f : Nat → Nat) : Nat → Option Nat
  | 0 => if f 0 = 10 then some 0 else none
  | n + 1 => if f (n + 1) = 10 then some (n + 1) else FindLastNewline f n

/-- The backward-search loop of `BackspaceVariableFormattedRecord`, with an
explicit fuel argument for termination (the file offset strictly decreases
on every continued iteration; fuel exhaustion, which no reachable state
produces, is reported as a crash).  The third component tells whether the
loop broke normally (true) or returned early on a short read. -/
def backspaceFmtLoop (prevNL : Int) (s : UnitState) (h : Iostat) :
    Nat → UnitState × Iostat × Bool
  | 0 => (s, Iostat.Crash, false)
  | fuel + 1 =>
    let hit : Option UnitState :=
      if s.frameOffsetInFile < prevNL then
        match FindLastNewline (fun j => s.file (s.frameAt + (j : Int)))
            (prevNL - 1 - s.frameOffsetInFile).toNat with
        | some p =>
          let s := { s with recordOffsetInFrame := (p : Int) + 1 }
          let rl := prevNL - (s.frameOffsetInFile + s.recordOffsetInFrame)
          some { s with recordLength := some rl }
        | none => none
      else none
    match hit with
    | some s => (s, h, true)
    | none =>
      if s.frameOffsetInFile = 0 then
        ({ s with recordOffsetInFrame := 0, recordLength := some prevNL }, h, true)
      else
        let fo := s.frameOffsetInFile - min s.frameOffsetInFile 1024
        let s := { s with frameOffsetInFile := fo }
        let need := prevNL + 1 - s.frameOffsetInFile
        let (got, s) := ReadFrame s s.frameOffsetInFile need
        if got < need then (s, signalError h Iostat.ShortRead, false)
        else backspaceFmtLoop prevNL s h fuel

/-- `BackspaceVariableFormattedRecord(handler)` from unit.cpp: take the
byte before the current record as the previous record's newline, scan
backwards (sliding the frame back up to 1024 bytes at a time) for the
newline before it — the record starts at file offset 0 when none exists —
then require a newline terminator at the record's end and strip one
trailing carriage return. -/
def BackspaceVariableFormattedRecord (s : UnitState) (h : Iostat) :
    UnitState × Iostat :=
  let prevNL := s.frameOffsetInFile + s.recordOffsetInFrame - 1
  if prevNL < 0 then (s, signalError h Iostat.BackspaceAtFirstRecord)
  else
    match backspaceFmtLoop prevNL s h (s.frameOffsetInFile.toNat + 2) with
    | (s, h, false) => (s, h)
    | (s, h, true) =>
      let rl := s.recordLength.getD 0
      if !(s.file (s.frameAt + s.recordOffsetInFrame + rl) = 10) then
        (s, signalError h Iostat.MissingTerminator)
      else if rl > 0 ∧ s.file (s.frameAt + s.recordOffsetInFrame + rl - 1) = 13 then
        ({ s with recordLength := some (rl - 1) }, h)
      else (s, h)

/-- `BackspaceRecord(handler)` from unit.cpp: forbidden on direct-access or
non-record files; after an explicit endfile only reset the record number to
the endfile record; after non-advancing I/O only clear the tab limit;
otherwise complete any implied endfile and, unless already at the file
start, step the record number back and reposition before the previous
record according to the record model.  A new record then begins. -/
def BackspaceRecord (s : UnitState) (h : Iostat) : UnitState × Iostat :=
  if s.access = Access.Direct ∨ !(IsRecordFile s) then
    (s, signalError h Iostat.BackspaceNonSequential)
  else
    let (s, h) :=
      if IsAfterEndfile s then
        ({ s with currentRecordNumber := s.endfileRecordNumber.getD 0 }, h)
      else if s.leftTabLimit.isSome then
        ({ s with leftTabLimit := none }, h)
      else
        let (s, h) := DoImpliedEndfile s h
        if s.frameOffsetInFile + s.recordOffsetInFrame > 0 then
          let s := { s with currentRecordNumber := s.currentRecordNumber - 1 }
          if s.openRecl.isSome ∧ s.access = Access.Direct then
            BackspaceFixedRecord s h
          else
            match s.isUnformatted with
            | none => (s, Iostat.Crash)
            | some unf =>
              if unf then BackspaceVariableUnformattedRecord s h
              else BackspaceVariableFormattedRecord s h
        else (s, h)
    (BeginRecord s, h)

/-- Modelled from the spec: the 64-bit-wide availability bitset (unit.h,
not in the sources) is the set of available identifiers below 64; its
`LeastElement()` is the least available identifier, found by scanning the
identifiers in increasing order. -/
def leastAvail (avail : Finset Nat) : Option Nat :=
  (List.range 64).find? (fun i => decide (i ∈ avail))

/-- `GetAsynchronousId(handler)` from unit.cpp: fail with BadAsynchronous
when the unit does not support asynchronous I/O; otherwise take the least
available identifier out of the pool and return it, or signal
TooManyAsyncOps when the pool is empty. -/
def GetAsynchronousId (s : UnitState) (h : Iostat) : Int × UnitState × Iostat :=
  if !s.mayAsynchronous then (-1, s, signalError h Iostat.BadAsynchronous)
  else
    match leastAvail s.asyncIdAvailable with
    | some i =>
      ((i : Int), { s with asyncIdAvailable := s.asyncIdAvailable.erase i }, h)
    | none => (-1, s, signalError h Iostat.TooManyAsyncOps)

/-- `Wait(id)` from unit.cpp: convert the `int` identifier to `size_t` (a
64-bit unsigned conversion); an out-of-range or already-available
identifier yields false; identifier 0 makes every identifier available
again and then re-reserves 0; any other identifier is returned to the
pool. -/
def Wait (s : UnitState) (id : Int) : Bool × UnitState :=
  let u := (id % (2 ^ 64 : Int)).toNat
  if 64 ≤ u then (false, s)
  else if u ∈ s.asyncIdAvailable then (false, s)
  else if id = 0 then
    (true, { s with asyncIdAvailable := (Finset.range 64).erase 0 })
  else (true, { s with asyncIdAvailable := insert u s.asyncIdAvailable })

/-! ### Pointwise characterization of `SwapEndianness` -/

theorem swapAt_apply (f : Nat → Nat) (a b i : Nat) :
    swapAt f a b i = if i = a then f b else if i = b then f a else f i := rfl

open Classical in
/-- The inner loop starting at iteration `k` exchanges exactly the pairs
`(j + m, j + eb - 1 - m)` for the remaining iterations `k ≤ m < half`. -/
theorem swapElemLoop_apply (j eb half : Nat) (hhalf : half = eb / 2)
    (heb : 2 ≤ eb) :
    ∀ n f k x, half - k = n → k ≤ half →
      swapElemLoop f j eb half k x =
        if ∃ m, k ≤ m ∧ m < half ∧ (x = j + m ∨ x = j + (eb - 1 - m)) then
          f (j + (eb - 1) - (x - j))
        else f x := by
  intro n
  induction n with
  | zero =>
    intro f k x hn hk
    have hnk : ¬ k < half := by omega
    rw [swapElemLoop, if_neg hnk]
    have hno : ¬ ∃ m, k ≤ m ∧ m < half ∧ (x = j + m ∨ x = j + (eb - 1 - m)) := by
      rintro ⟨m, h1, h2, _⟩; omega
    rw [if_neg hno]
  | succ n ih =>
    intro f k x hn hk
    have hklt : k < half := by omega
    rw [swapElemLoop, if_pos hklt]
    rw [ih (swapAt f (j + k) (j + eb - 1 - k)) (k + 1) x (by omega) (by omega)]
    by_cases hex : ∃ m, k + 1 ≤ m ∧ m < half ∧ (x = j + m ∨ x = j + (eb - 1 - m))
    · rw [if_pos hex]
      obtain ⟨m, hm1, hm2, hm3⟩ := hex
      have hall : ∃ m, k ≤ m ∧ m < half ∧ (x = j + m ∨ x = j + (eb - 1 - m)) :=
        ⟨m, by omega, hm2, hm3⟩
      rw [if_pos hall, swapAt_apply]
      have h1 : ¬ (j + (eb - 1) - (x - j) = j + k) := by
        rcases hm3 with h | h <;> omega
      have h2 : ¬ (j + (eb - 1) - (x - j) = j + eb - 1 - k) := by
        rcases hm3 with h | h <;> omega
      rw [if_neg h1, if_neg h2]
    · rw [if_neg hex, swapAt_apply]
      by_cases hxa : x = j + k
      · have hall : ∃ m, k ≤ m ∧ m < half ∧ (x = j + m ∨ x = j + (eb - 1 - m)) :=
          ⟨k, le_refl k, hklt, Or.inl hxa⟩
        rw [if_pos hxa, if_pos hall]
        have : j + eb - 1 - k = j + (eb - 1) - (x - j) := by omega
        rw [this]
      · rw [if_neg hxa]
        by_cases hxb : x = j + eb - 1 - k
        · have hall : ∃ m, k ≤ m ∧ m < half ∧
              (x = j + m ∨ x = j + (eb - 1 - m)) :=
            ⟨k, le_refl k, hklt, Or.inr (by omega)⟩
          rw [if_pos hxb, if_pos hall]
          have : j + k = j + (eb - 1) - (x - j) := by omega
          rw [this]
        · rw [if_neg hxb]
          have hno : ¬ ∃ m, k ≤ m ∧ m < half ∧
              (x = j + m ∨ x = j + (eb - 1 - m)) := by
            rintro ⟨m, h1, h2, h3⟩
            by_cases hmk : m = k
            · subst hmk; rcases h3 with h | h <;> omega
            · exact hex ⟨m, by omega, h2, h3⟩
          rw [if_neg hno]

/-- Running the complete inner loop on the element starting at `j` reverses
the bytes of the index interval from `j` to `j + eb`. -/
theorem swapElemLoop_full (f : Nat → Nat) (j eb x : Nat) (heb : 2 ≤ eb) :
    swapElemLoop f j eb (eb / 2) 0 x =
      if j ≤ x ∧ x < j + eb then f (j + (eb - 1) - (x - j)) else f x := by
  rw [swapElemLoop_apply j eb (eb / 2) rfl heb (eb / 2) f 0 x (by omega)
    (Nat.zero_le _)]
  by_cases hin : j ≤ x ∧ x < j + eb
  · rw [if_pos hin]
    by_cases hex : ∃ m, 0 ≤ m ∧ m < eb / 2 ∧ (x = j + m ∨ x = j + (eb - 1 - m))
    · rw [if_pos hex]
    · rw [if_neg hex]
      -- the only in-element index the loop leaves alone is the exact middle
      -- of an odd-sized element, and that index is its own mirror
      have hmid : x = j + (eb - 1) - (x - j) := by
        by_contra hne
        apply hex
        by_cases hlow : x - j < eb / 2
        · exact ⟨x - j, Nat.zero_le _, hlow, Or.inl (by omega)⟩
        · exact ⟨eb - 1 - (x - j), Nat.zero_le _, by omega, Or.inr (by omega)⟩
      rw [← hmid]
  · rw [if_neg hin]
    have hno : ¬ ∃ m, 0 ≤ m ∧ m < eb / 2 ∧
        (x = j + m ∨ x = j + (eb - 1 - m)) := by
      rintro ⟨m, _, h2, h3⟩; rcases h3 with h | h <;> omega
    rw [if_neg hno]

/-- The outer loop, begun at element offset `j`, reverses each complete
element at or beyond `j` whose end lies within `bytes` and moves no other
byte. -/
theorem swapLoop_apply (eb : Nat) (heb : 2 ≤ eb) :
    ∀ n f bytes j x, bytes - j ≤ n →
      swapLoop f bytes eb j x =
        if j ≤ x ∧ j + (x - j) / eb * eb + eb ≤ bytes then
          f (j + (x - j) / eb * eb + (eb - 1) - (x - (j + (x - j) / eb * eb)))
        else f x := by
  intro n
  induction n with
  | zero =>
    intro f bytes j x hn
    have hguard : ¬ (j + eb ≤ bytes ∧ 1 < eb) := by omega
    rw [swapLoop, if_neg hguard]
    have hno : ¬ (j ≤ x ∧ j + (x - j) / eb * eb + eb ≤ bytes) := by
      rintro ⟨h1, h2⟩; omega
    rw [if_neg hno]
  | succ n ih =>
    intro f bytes j x hn
    by_cases hguard : j + eb ≤ bytes ∧ 1 < eb
    · rw [swapLoop, if_pos hguard]
      rw [ih (swapElemLoop f j eb (eb / 2) 0) bytes (j + eb) x (by omega)]
      by_cases hlo : x < j
      · have h1 : ¬ (j + eb ≤ x ∧ j + eb + (x - (j + eb)) / eb * eb + eb ≤ bytes) := by
          rintro ⟨h, _⟩; omega
        have h2 : ¬ (j ≤ x ∧ j + (x - j) / eb * eb + eb ≤ bytes) := by
          rintro ⟨h, _⟩; omega
        rw [if_neg h1, if_neg h2, swapElemLoop_full f j eb x heb,
          if_neg (by omega)]
      · by_cases hblk : x < j + eb
        · have h1 : ¬ (j + eb ≤ x ∧
              j + eb + (x - (j + eb)) / eb * eb + eb ≤ bytes) := by
            rintro ⟨h, _⟩; omega
          rw [if_neg h1, swapElemLoop_full f j eb x heb, if_pos (by omega)]
          have hdiv : (x - j) / eb = 0 := Nat.div_eq_of_lt (by omega)
          have h2 : j ≤ x ∧ j + (x - j) / eb * eb + eb ≤ bytes := by
            rw [hdiv]; constructor <;> omega
          rw [if_pos h2, hdiv]
          have : j + (eb - 1) - (x - j) = j + 0 * eb + (eb - 1) - (x - (j + 0 * eb)) := by
            omega
          rw [this]
        · -- x lies at or beyond the next element: the divisions agree
          have hxj : j + eb ≤ x := by omega
          have hdiv : (x - j) / eb = (x - (j + eb)) / eb + 1 := by
            have h1 : eb ≤ x - j := by omega
            have h2 : (x - j) / eb = (x - j - eb) / eb + 1 :=
              Nat.div_eq_sub_div (by omega) h1
            have h3 : x - j - eb = x - (j + eb) := by omega
            rw [h2, h3]
          have hbs : j + eb + (x - (j + eb)) / eb * eb = j + (x - j) / eb * eb := by
            rw [hdiv]; ring
          rw [hbs]
          have hm := Nat.mod_add_div' (x - j) eb
          have hr := Nat.mod_lt (x - j) (show 0 < eb by omega)
          have hq1 : 1 ≤ (x - j) / eb :=
            (Nat.one_le_div_iff (by omega)).2 (by omega)
          have hA : eb ≤ (x - j) / eb * eb := by
            calc eb = 1 * eb := (one_mul eb).symm
              _ ≤ (x - j) / eb * eb := Nat.mul_le_mul_right eb hq1
          by_cases hc : j ≤ x ∧ j + (x - j) / eb * eb + eb ≤ bytes
          · rw [if_pos ⟨hxj, (by omega : j + (x - j) / eb * eb + eb ≤ bytes)⟩,
              if_pos hc, swapElemLoop_full f j eb _ heb]
            rw [if_neg (by omega)]
          · rw [if_neg (by
              rintro ⟨h1, h2⟩
              exact hc ⟨by omega, h2⟩), if_neg hc,
              swapElemLoop_full f j eb x heb, if_neg (by omega)]
    · rw [swapLoop, if_neg hguard]
      have hno : ¬ (j ≤ x ∧ j + (x - j) / eb * eb + eb ≤ bytes) := by
        rintro ⟨h1, h2⟩; omega
      rw [if_neg hno]

/-- C8: the endianness swap reverses the bytes within each successive
complete elementBytes-sized element whose end lies at or before offset
`bytes` (the byte at offset `i` of such an element comes from the mirrored
offset of the same element, which is the reversal of that element); it is a
no-op whenever `elementBytes ≤ 1`; and any byte in a trailing partial
element — any `i` whose element does not end by `bytes`, which covers every
offset at or beyond `bytes` — is left untouched. -/
theorem C8_swap_endianness :
    (∀ (f : Nat → Nat) (bytes eb : Nat), eb ≤ 1 →
      SwapEndianness f bytes eb = f) ∧
    (∀ (f : Nat → Nat) (bytes eb i : Nat), 1 < eb → (i / eb + 1) * eb ≤ bytes →
      SwapEndianness f bytes eb i = f (i / eb * eb + (eb - 1) - i % eb)) ∧
    (∀ (f : Nat → Nat) (bytes eb i : Nat), bytes < (i / eb + 1) * eb →
      SwapEndianness f bytes eb i = f i) := by
  refine ⟨?_, ?_, ?_⟩
  · intro f bytes eb heb
    rw [SwapEndianness, if_neg (by omega)]
  · intro f bytes eb i heb hin
    rw [SwapEndianness, if_pos heb,
      swapLoop_apply eb heb bytes f bytes 0 i (le_refl _)]
    have hm := Nat.mod_add_div' i eb
    have h0 : i - 0 = i := by omega
    rw [h0]
    have hcond : 0 ≤ i ∧ 0 + i / eb * eb + eb ≤ bytes := by
      constructor
      · omega
      · have : (i / eb + 1) * eb = i / eb * eb + eb := by ring
        omega
    rw [if_pos hcond]
    have hidx : 0 + i / eb * eb + (eb - 1) - (i - (0 + i / eb * eb)) =
        i / eb * eb + (eb - 1) - i % eb := by
      have hr := Nat.mod_lt i (show 0 < eb by omega)
      omega
    rw [hidx]
  · intro f bytes eb i hout
    by_cases heb : 1 < eb
    · rw [SwapEndianness, if_pos heb,
        swapLoop_apply eb heb bytes f bytes 0 i (le_refl _)]
      have hm := Nat.mod_add_div' i eb
      have hcond : ¬ (0 ≤ i ∧ 0 + (i - 0) / eb * eb + eb ≤ bytes) := by
        rintro ⟨-, h⟩
        have h0 : i - 0 = i := by omega
        rw [h0] at h
        have : (i / eb + 1) * eb = i / eb * eb + eb := by ring
        omega
      rw [if_neg hcond]
    · rw [SwapEndianness, if_neg heb]

/-- Concrete instantiation of `C8_swap_endianness`: with 2-byte elements
over a 5-byte buffer holding bytes 10,11,12,13,14, offsets 0 and 1 are
exchanged and the trailing partial byte at offset 4 stays. -/
theorem C8_swap_endianness_witness :
    SwapEndianness (fun i => 10 + i) 5 2 0 = 11 ∧
    SwapEndianness (fun i => 10 + i) 5 2 4 = 14 ∧
    SwapEndianness (fun i => 10 + i) 5 1 3 = 13 := by
  refine ⟨?_, ?_, ?_⟩
  · rw [C8_swap_endianness.2.1 (fun i => 10 + i) 5 2 0 (by decide) (by decide)]
  · rw [C8_swap_endianness.2.2 (fun i => 10 + i) 5 2 4 (by decide)]
  · rw [C8_swap_endianness.1 (fun i => 10 + i) 5 1 (by decide)]

/-! ### Emit and Receive overrun checks -/

/-- C2: on a unit with a fixed `openRecl`, an `Emit` whose
`furthestAfter = max(furthestPositionInRecord, positionInRecord + bytes)`
exceeds `openRecl` plus the allowed overhead `emitExtra` signals
RecordWriteOverrun, returns false, and leaves the whole state — in
particular `positionInRecord` and `furthestPositionInRecord` — unchanged. -/
theorem C2_emit_write_overrun (s : UnitState) (h : Iostat) (data : Nat → Nat)
    (bytes elementBytes : Nat) (recl : Int) (hrecl : s.openRecl = some recl)
    (hover : max s.furthestPositionInRecord (s.positionInRecord + (bytes : Int)) >
      emitExtra s + recl) :
    Emit s h data bytes elementBytes =
      (false, s, signalError h Iostat.RecordWriteOverrun) := by
  have hov : emitOverrun s
      (max s.furthestPositionInRecord (s.positionInRecord + (bytes : Int))) =
      true := by
    rw [emitOverrun, hrecl]
    simpa using hover
  simp only [Emit]
  rw [if_pos hov]

/-- Concrete instantiation of `C2_emit_write_overrun`: a sequential
formatted unit with RECL=4 rejects a 6-byte emit at position 0. -/
theorem C2_emit_write_overrun_witness :
    Emit { access := Access.Sequential, direction := Direction.Output,
           isUnformatted := some false, openRecl := some 4 }
        Iostat.Ok (fun _ => 65) 6 1 =
      (false,
       { access := Access.Sequential, direction := Direction.Output,
         isUnformatted := some false, openRecl := some 4 },
       Iostat.RecordWriteOverrun) := by
  rw [C2_emit_write_overrun _ Iostat.Ok (fun _ => 65) 6 1 4 rfl (by decide)]
  rfl

/-- C5: a `Receive` on an input unit with a known `recordLength` whose
`furthestAfter` exceeds that length signals RecordReadOverrun, returns
false (with no data), and leaves the whole state — in particular
`positionInRecord` and `furthestPositionInRecord` — unchanged. -/
theorem C5_receive_read_overrun (s : UnitState) (h : Iostat)
    (bytes elementBytes : Nat) (len : Int)
    (hdir : s.direction = Direction.Input) (hlen : s.recordLength = some len)
    (hover : max s.furthestPositionInRecord (s.positionInRecord + (bytes : Int)) >
      len) :
    Receive s h bytes elementBytes =
      (false, none, s, signalError h Iostat.RecordReadOverrun) := by
  simp only [Receive, hdir, hlen, Option.getD_some, gt_iff_lt, decide_eq_true_eq,
    Bool.not_true, Bool.false_eq_true, if_false]
  rw [if_neg (by simp), if_pos hover]

/-- Concrete instantiation of `C5_receive_read_overrun`: a 9-byte read
overruns a record of known length 8. -/
theorem C5_receive_read_overrun_witness :
    Receive { access := Access.Sequential, direction := Direction.Input,
              isUnformatted := some true, recordLength := some 8 }
        Iostat.Ok 9 1 =
      (false, none,
       { access := Access.Sequential, direction := Direction.Input,
         isUnformatted := some true, recordLength := some 8 },
       Iostat.RecordReadOverrun) := by
  rw [C5_receive_read_overrun _ Iostat.Ok 9 1 8 rfl rfl (by decide)]
  rfl

/-! ### FinishReadingRecord after END -/

/-- C7: when END was signaled during the read, or the unit is a record
file with no known record length, `FinishReadingRecord` still increments
`currentRecordNumber` by one. -/
theorem C7_finish_reading_record_still_increments (s : UnitState) (h : Iostat)
    (hdir : s.direction = Direction.Input) (hbeg : s.beganReadingRecord = true)
    (hcond : h = Iostat.End ∨ (IsRecordFile s = true ∧ s.recordLength = none)) :
    ((FinishReadingRecord s h).1).currentRecordNumber =
      s.currentRecordNumber + 1 := by
  rw [FinishReadingRecord]
  rw [if_neg (by simp [hdir, hbeg])]
  rw [if_pos (by simpa using hcond)]
  rfl

/-- Concrete instantiation of
`C7_finish_reading_record_still_increments`: END during the read of record
3 still moves the unit to record 4. -/
theorem C7_finish_reading_record_witness :
    ((FinishReadingRecord
        { access := Access.Sequential, direction := Direction.Input,
          isUnformatted := some true, beganReadingRecord := true,
          currentRecordNumber := 3 }
        Iostat.End).1).currentRecordNumber = 4 := by
  rw [C7_finish_reading_record_still_increments _ Iostat.End rfl rfl
    (Or.inl rfl)]
  rfl

/-! ### SetVariableFormattedRecordLength on an empty record -/

/-- C9: when the record length is not yet known, access is not direct, and
the first byte of the current record present in the frame is a newline,
`SetVariableFormattedRecordLength` returns true and sets `recordLength` to
0; the result does not depend on any byte before the record start (the
state `s` quantifies over all of them), because the carriage-return check
is guarded by a positive computed record length. -/
theorem C9_set_variable_formatted_record_length_empty (s : UnitState)
    (hrl : s.recordLength = none) (hacc : ¬ s.access = Access.Direct)
    (hframe : s.frameLen > s.recordOffsetInFrame)
    (hnl : s.file (s.frameAt + s.recordOffsetInFrame) = 10) :
    SetVariableFormattedRecordLength s =
      (true, { s with recordLength := some 0 }) := by
  rw [SetVariableFormattedRecordLength]
  rw [if_neg (by simp [hrl, hacc])]
  rw [if_pos hframe]
  obtain ⟨m, hm⟩ : ∃ m, (s.frameLen - s.recordOffsetInFrame).toNat = m + 1 :=
    ⟨(s.frameLen - s.recordOffsetInFrame).toNat - 1, by omega⟩
  simp only [FindCharacter, hm, findCharAux]
  rw [if_pos (by simpa using hnl)]
  simp

/-! ### Emit on a direct-access unit without REC= -/

/-- A direct-access output unit, RECL=8, on which no REC= was specified. -/
def directNoRecUnit : UnitState :=
  { access := Access.Direct, direction := Direction.Output,
    isUnformatted := some true, openRecl := some 8,
    directAccessRecWasSet := false }

/-- C3 counterexample: on a direct-access unit with
`directAccessRecWasSet = false`, `Emit` signals the "No REC=" error but —
contrary to the claim — returns true, transfers the data byte into the
frame, and advances the cursor (the failure result of `CheckDirectAccess`
is discarded at its call site in `Emit`). -/
theorem C3_counterexample :
    (Emit directNoRecUnit Iostat.Ok (fun _ => 7) 1 1).1 = true ∧
    (Emit directNoRecUnit Iostat.Ok (fun _ => 7) 1 1).2.2 =
      Iostat.NoRecForDirectAccess ∧
    (Emit directNoRecUnit Iostat.Ok (fun _ => 7) 1 1).2.1.file 0 = 7 ∧
    (Emit directNoRecUnit Iostat.Ok (fun _ => 7) 1 1).2.1.positionInRecord = 1 := by
  refine ⟨by decide, by decide, by decide, by decide⟩

/-- C3 as amended: for every `Emit` on a direct-access unit without a REC=
(no record overrun, with a fresh handler, no stale record length, not after
an endfile, and no endianness conversion), the "No REC=" error is signaled
on the handler, but the transfer is still performed — the data lands in the
frame and the cursor advances — and `Emit` returns true. -/
theorem C3_amended_emit_direct_norec (s : UnitState) (data : Nat → Nat)
    (bytes elementBytes : Nat) (recl : Int)
    (hacc : s.access = Access.Direct) (hrecl : s.openRecl = some recl)
    (hset : s.directAccessRecWasSet = false) (hrl : s.recordLength = none)
    (hend : s.endfileRecordNumber = none) (hswap : s.swapEndianness = false)
    (hle : max s.furthestPositionInRecord (s.positionInRecord + (bytes : Int)) ≤
      recl) :
    (Emit s Iostat.Ok data bytes elementBytes).1 = true ∧
    (Emit s Iostat.Ok data bytes elementBytes).2.2 =
      Iostat.NoRecForDirectAccess ∧
    (Emit s Iostat.Ok data bytes elementBytes).2.1.positionInRecord =
      s.positionInRecord + (bytes : Int) ∧
    ∀ j : Nat, j < bytes →
      (Emit s Iostat.Ok data bytes elementBytes).2.1.file
        (s.frameOffsetInFile + s.recordOffsetInFrame + s.positionInRecord +
          (j : Int)) = data j := by
  have hextra : emitExtra s = 0 := by
    rw [emitExtra, if_neg (by rw [hacc]; exact fun hc => by cases hc)]
  have hae : IsAfterEndfile s = false := by rw [IsAfterEndfile, hend]
  have hcda : (CheckDirectAccess s Iostat.Ok).2 = Iostat.NoRecForDirectAccess := by
    rw [CheckDirectAccess, if_pos hacc, if_pos (by rw [hrecl]; rfl),
      if_pos (by rw [hset]; rfl)]
    rfl
  have hov : emitOverrun s
      (max s.furthestPositionInRecord (s.positionInRecord + (bytes : Int))) =
      false := by
    rw [emitOverrun, hrecl, hextra]
    simpa using (by omega :
      ¬ 0 + recl <
        max s.furthestPositionInRecord (s.positionInRecord + (bytes : Int)))
  simp only [Emit, hov, hrl, hae, hcda, Option.isSome_none,
    Bool.false_eq_true, if_false]
  rw [if_neg (by decide)]
  simp only [WriteFrame, storeBytes, swapFileRegion, hswap, Bool.false_eq_true,
    if_false]
  by_cases hgap : s.positionInRecord > s.furthestPositionInRecord
  · rw [if_pos hgap]
    refine ⟨trivial, trivial, rfl, ?_⟩
    intro j hj
    simp only [Bool.false_eq_true, if_false]
    rw [if_pos (by constructor <;> omega)]
    congr 1
    omega
  · rw [if_neg hgap]
    refine ⟨trivial, trivial, rfl, ?_⟩
    intro j hj
    simp only [Bool.false_eq_true, if_false]
    rw [if_pos (by constructor <;> omega)]
    congr 1
    omega

/-- Concrete instantiation of `C3_amended_emit_direct_norec` on
`directNoRecUnit`. -/
theorem C3_amended_witness :
    (Emit directNoRecUnit Iostat.Ok (fun _ => 9) 2 1).1 = true ∧
    (Emit directNoRecUnit Iostat.Ok (fun _ => 9) 2 1).2.2 =
      Iostat.NoRecForDirectAccess ∧
    (Emit directNoRecUnit Iostat.Ok (fun _ => 9) 2 1).2.1.positionInRecord = 2 ∧
    (Emit directNoRecUnit Iostat.Ok (fun _ => 9) 2 1).2.1.file 1 = 9 := by
  obtain ⟨h1, h2, h3, h4⟩ := C3_amended_emit_direct_norec directNoRecUnit
    (fun _ => 9) 2 1 8 rfl rfl rfl rfl rfl rfl (by decide)
  refine ⟨h1, h2, by rw [h3]; decide, ?_⟩
  have h5 := h4 1 (by decide)
  simpa using h5

/-! ### The asynchronous-identifier pool -/

/-- N successive calls to `GetAsynchronousId` on one unit, returning the
identifiers in order together with the final state and handler. -/
def allocSeq : Nat → UnitState → Iostat → List Int × UnitState × Iostat
  | 0, s, h => ([], s, h)
  | n + 1, s, h =>
    let r := GetAsynchronousId s h
    let rest := allocSeq n r.2.1 r.2.2
    (r.1 :: rest.1, rest.2)

theorem getAsynchronousId_subset (s : UnitState) (h : Iostat) :
    (GetAsynchronousId s h).2.1.asyncIdAvailable ⊆ s.asyncIdAvailable := by
  rw [GetAsynchronousId]
  by_cases hm : s.mayAsynchronous
  · rw [if_neg (by simp [hm])]
    cases hl : leastAvail s.asyncIdAvailable with
    | none => exact Finset.Subset.refl _
    | some i => exact Finset.erase_subset i s.asyncIdAvailable
  · rw [if_pos (by simp [hm])]

theorem allocSeq_subset (n : Nat) (s : UnitState) (h : Iostat) :
    (allocSeq n s h).2.1.asyncIdAvailable ⊆ s.asyncIdAvailable := by
  induction n generalizing s h with
  | zero => exact Finset.Subset.refl _
  | succ n ih =>
    rw [allocSeq]
    exact Finset.Subset.trans (ih _ _) (getAsynchronousId_subset s h)

theorem getAsynchronousId_success (s : UnitState) (h : Iostat)
    (hok : (GetAsynchronousId s h).1 ≠ -1) :
    ∃ i : Nat, (GetAsynchronousId s h).1 = (i : Int) ∧
      i ∈ s.asyncIdAvailable ∧
      (GetAsynchronousId s h).2.1.asyncIdAvailable =
        s.asyncIdAvailable.erase i := by
  rw [GetAsynchronousId] at hok ⊢
  by_cases hm : s.mayAsynchronous
  · rw [if_neg (by simp [hm])] at hok ⊢
    cases hl : leastAvail s.asyncIdAvailable with
    | none => rw [hl] at hok; exact absurd rfl hok
    | some i =>
      rw [hl] at hok
      refine ⟨i, rfl, ?_, rfl⟩
      have hfind : i ∈ s.asyncIdAvailable ∧ i < 64 ∧
          ∀ j < i, j ∉ s.asyncIdAvailable := by
        simpa [leastAvail] using hl
      exact hfind.1
  · rw [if_pos (by simp [hm])] at hok
    exact absurd rfl hok

theorem allocSeq_mem (n : Nat) (s : UnitState) (h : Iostat) (x : Int)
    (hx : x ∈ (allocSeq n s h).1) (hok : x ≠ -1) :
    ∃ i : Nat, x = (i : Int) ∧ i ∈ s.asyncIdAvailable := by
  induction n generalizing s h with
  | zero => simp [allocSeq] at hx
  | succ n ih =>
    rw [allocSeq] at hx
    simp only [List.mem_cons] at hx
    rcases hx with hx | hx
    · subst hx
      obtain ⟨i, hi1, hi2, -⟩ := getAsynchronousId_success s h hok
      exact ⟨i, hi1, hi2⟩
    · obtain ⟨i, hi1, hi2⟩ := ih _ _ hx
      exact ⟨i, hi1,
        getAsynchronousId_subset s h hi2⟩

theorem allocSeq_pairwise (n : Nat) (s : UnitState) (h : Iostat)
    (hok : ∀ x ∈ (allocSeq n s h).1, x ≠ -1) :
    (allocSeq n s h).1.Pairwise (fun a b => a ≠ b) := by
  induction n generalizing s h with
  | zero => simp [allocSeq]
  | succ n ih =>
    rw [allocSeq]
    rw [allocSeq] at hok
    simp only [List.mem_cons] at hok
    refine List.Pairwise.cons ?_ (ih _ _ (fun x hx => hok x (Or.inr hx)))
    intro y hy
    have hhead : (GetAsynchronousId s h).1 ≠ -1 := hok _ (Or.inl rfl)
    obtain ⟨i, hi1, -, hi3⟩ := getAsynchronousId_success s h hhead
    have hyok : y ≠ -1 := hok y (Or.inr hy)
    obtain ⟨j, hj1, hj2⟩ := allocSeq_mem n _ _ y hy hyok
    rw [hi3] at hj2
    have hji : j ≠ i := (Finset.mem_erase.1 hj2).1
    rw [hi1, hj1]
    intro hc
    exact hji (by exact_mod_cast hc.symm)

/-- C6: the asynchronous-identifier pool.  (1) N successive
`GetAsynchronousId` calls that all succeed return pairwise distinct
identifiers, and — ID 0 being reserved out of the pool — none of them is
0.  (2) When no identifier is available the call signals TooManyAsyncOps
and returns -1 with the state unchanged.  (3) After `Wait 0`, every
nonzero identifier below the pool width is available again while 0 stays
reserved.  (4) `Wait` on an already-available identifier returns false and
changes nothing. -/
theorem C6_async_id_pool :
    (∀ (n : Nat) (s : UnitState) (h : Iostat),
      (∀ x ∈ (allocSeq n s h).1, x ≠ -1) →
      (allocSeq n s h).1.Pairwise (fun a b => a ≠ b) ∧
      (0 ∉ s.asyncIdAvailable → ∀ x ∈ (allocSeq n s h).1, x ≠ 0)) ∧
    (∀ (s : UnitState) (h : Iostat), s.mayAsynchronous = true →
      s.asyncIdAvailable = ∅ →
      GetAsynchronousId s h = (-1, s, signalError h Iostat.TooManyAsyncOps)) ∧
    (∀ s : UnitState, 0 ∉ s.asyncIdAvailable →
      (Wait s 0).1 = true ∧
      (∀ u : Nat, 1 ≤ u → u < 64 → u ∈ (Wait s 0).2.asyncIdAvailable) ∧
      0 ∉ (Wait s 0).2.asyncIdAvailable) ∧
    (∀ (s : UnitState) (u : Nat), u < 64 → u ∈ s.asyncIdAvailable →
      Wait s (u : Int) = (false, s)) := by
  refine ⟨?_, ?_, ?_, ?_⟩
  · intro n s h hok
    refine ⟨allocSeq_pairwise n s h hok, ?_⟩
    intro h0 x hx
    obtain ⟨i, hi1, hi2⟩ := allocSeq_mem n s h x hx (hok x hx)
    have : i ≠ 0 := fun hc => h0 (hc ▸ hi2)
    rw [hi1]
    exact_mod_cast this
  · intro s h hm hempty
    rw [GetAsynchronousId, if_neg (by simp [hm])]
    have hl : leastAvail s.asyncIdAvailable = none := by
      rw [hempty]
      rw [leastAvail, List.find?_eq_none]
      intro x hx
      simp
    rw [hl]
  · intro s h0
    have hmod : ((0 : Int) % (2 ^ 64 : Int)).toNat = 0 := by decide
    rw [Wait]
    simp only [hmod]
    rw [if_neg (by omega), if_neg h0, if_pos trivial]
    refine ⟨rfl, ?_, ?_⟩
    · intro u h1 h64
      simp only
      exact Finset.mem_erase.2 ⟨by omega, Finset.mem_range.2 h64⟩
    · simp only
      exact Finset.not_mem_erase 0 (Finset.range 64)
  · intro s u h64 hmem
    have hmod : (((u : Int)) % (2 ^ 64 : Int)).toNat = u := by
      have h1 : ((u : Int)) % (2 ^ 64 : Int) = (u : Int) :=
        Int.emod_eq_of_lt (by positivity) (by
          have : (u : Int) < (64 : Int) := by exact_mod_cast h64
          calc (u : Int) < 64 := this
            _ ≤ 2 ^ 64 := by norm_num)
      rw [h1, Int.toNat_natCast]
    rw [Wait]
    simp only [hmod]
    rw [if_neg (by omega), if_pos hmem]

/-- Concrete instantiation of `C6_async_id_pool` on a fresh unit: three
allocations return 1, 2, 3 (distinct and nonzero); an empty pool fails
with TooManyAsyncOps; waiting on 0 frees identifiers 1..63; waiting on the
available identifier 5 returns false. -/
theorem C6_async_id_pool_witness :
    ((allocSeq 3 { } Iostat.Ok).1.Pairwise (fun a b => a ≠ b) ∧
      (0 ∉ UnitState.asyncIdAvailable { } →
        ∀ x ∈ (allocSeq 3 { } Iostat.Ok).1, x ≠ 0)) ∧
    GetAsynchronousId { asyncIdAvailable := ∅ } Iostat.Ok =
      (-1, { asyncIdAvailable := ∅ }, Iostat.TooManyAsyncOps) ∧
    (Wait { } 0).1 = true ∧
    Wait { } 5 = (false, { }) := by
  refine ⟨C6_async_id_pool.1 3 { } Iostat.Ok (by decide), ?_, ?_, ?_⟩
  · exact C6_async_id_pool.2.1 { asyncIdAvailable := ∅ } Iostat.Ok rfl rfl
  · exact (C6_async_id_pool.2.2.1 { } (by decide)).1
  · exact C6_async_id_pool.2.2.2 { } 5 (by decide) (by decide)

/-- C10: `Wait` on a negative identifier (any value of the C `int`
argument below zero) returns false and leaves the availability set — and
the whole state — unchanged: the value converts to an unsigned index of at
least 2^64 - 2^31, which the out-of-range test rejects before any bitset
access. -/
theorem C10_wait_negative_id (s : UnitState) (id : Int) (hneg : id < 0)
    (hrange : -(2 ^ 31) ≤ id) :
    Wait s id = (false, s) := by
  have hu : 64 ≤ ((id % (2 ^ 64 : Int))).toNat := by omega
  rw [Wait]
  rw [if_pos hu]

/-- Concrete instantiation of `C10_wait_negative_id` at identifier -5. -/
theorem C10_wait_negative_id_witness :
    Wait { } (-5) = (false, { }) :=
  C10_wait_negative_id { } (-5) (by decide) (by decide)

/-! ### AdvanceRecord followed by BackspaceRecord -/

theorem isAfterEndfile_congr (s t : UnitState)
    (he : s.endfileRecordNumber = t.endfileRecordNumber)
    (hc : s.currentRecordNumber = t.currentRecordNumber) :
    IsAfterEndfile s = IsAfterEndfile t := by
  rw [IsAfterEndfile, IsAfterEndfile, he, hc]

theorem isRecordFile_congr (s t : UnitState)
    (ha : s.access = t.access) (hu : s.isUnformatted = t.isUnformatted) :
    IsRecordFile s = IsRecordFile t := by
  rw [IsRecordFile, IsRecordFile, ha, hu]

/-- The effect of `Emit` on a non-direct unit with no stale record length,
not positioned after an endfile, called on a non-crashed handler: failure
can only be a record overrun, which changes nothing; success preserves all
connection state except the frame, the cursor, and the high-water mark. -/
theorem emit_nondirect (s : UnitState) (h : Iostat) (d : Nat → Nat)
    (bytes eb : Nat) (hrl : s.recordLength = none)
    (hnae : IsAfterEndfile s = false) (hnd : ¬ s.access = Access.Direct)
    (hnc : ¬ h = Iostat.Crash) :
    ((Emit s h d bytes eb).1 = false →
      (Emit s h d bytes eb).2.1 = s ∧
      ∃ r, s.openRecl = some r ∧
        emitExtra s + r <
          max s.furthestPositionInRecord (s.positionInRecord + (bytes : Int))) ∧
    ((Emit s h d bytes eb).1 = true →
      (Emit s h d bytes eb).2.2 = h ∧
      (Emit s h d bytes eb).2.1.access = s.access ∧
      (Emit s h d bytes eb).2.1.direction = s.direction ∧
      (Emit s h d bytes eb).2.1.isUnformatted = s.isUnformatted ∧
      (Emit s h d bytes eb).2.1.openRecl = s.openRecl ∧
      (Emit s h d bytes eb).2.1.recordLength = none ∧
      (Emit s h d bytes eb).2.1.endfileRecordNumber = s.endfileRecordNumber ∧
      (Emit s h d bytes eb).2.1.currentRecordNumber = s.currentRecordNumber ∧
      (Emit s h d bytes eb).2.1.leftTabLimit = s.leftTabLimit ∧
      (Emit s h d bytes eb).2.1.impliedEndfile = s.impliedEndfile ∧
      (Emit s h d bytes eb).2.1.frameOffsetInFile = s.frameOffsetInFile ∧
      (Emit s h d bytes eb).2.1.recordOffsetInFrame = s.recordOffsetInFrame ∧
      (Emit s h d bytes eb).2.1.mayPosition = s.mayPosition ∧
      (Emit s h d bytes eb).2.1.isWindows = s.isWindows ∧
      (Emit s h d bytes eb).2.1.isWindowsTextFileFlag =
        s.isWindowsTextFileFlag ∧
      (Emit s h d bytes eb).2.1.positionInRecord =
        s.positionInRecord + (bytes : Int) ∧
      (Emit s h d bytes eb).2.1.furthestPositionInRecord =
        max s.furthestPositionInRecord (s.positionInRecord + (bytes : Int))) := by
  have hcda : CheckDirectAccess s h = (true, h) := by
    rw [CheckDirectAccess, if_neg hnd]
  simp only [Emit, hrl, hnae, hcda, Option.isSome_none, Bool.false_eq_true,
    if_false]
  rw [if_neg hnc]
  by_cases hov : emitOverrun s
      (max s.furthestPositionInRecord (s.positionInRecord + (bytes : Int))) =
      true
  · rw [if_pos hov]
    constructor
    · intro _
      refine ⟨rfl, ?_⟩
      rw [emitOverrun] at hov
      cases hrecl : s.openRecl with
      | none => rw [hrecl] at hov; simp at hov
      | some r =>
        rw [hrecl] at hov
        exact ⟨r, rfl, by simpa using hov⟩
    · intro hc
      simp at hc
  · rw [if_neg hov]
    constructor
    · intro hc
      simp at hc
    · intro _
      simp only [WriteFrame, storeBytes, swapFileRegion]
      split_ifs <;> simp [hrl]

/-- The common output tail of `AdvanceRecord` on a non-direct record-file
unit that is not positioned after an endfile: the record number steps by
one, the non-advancing limit clears, an implied endfile becomes pending,
the committed frame position absorbs the record, and the unit is not after
an endfile. -/
theorem advanceOutputTail_shape (ok : Bool) (s : UnitState) (h : Iostat)
    (hacc : ¬ s.access = Access.Direct) (hrf : IsRecordFile s = true)
    (hnae : IsAfterEndfile s = false) (hrln : s.recordLength = none) :
    (advanceOutputTail ok s h).2.1.currentRecordNumber =
      s.currentRecordNumber + 1 ∧
    (advanceOutputTail ok s h).2.1.access = s.access ∧
    (advanceOutputTail ok s h).2.1.isUnformatted = s.isUnformatted ∧
    (advanceOutputTail ok s h).2.1.openRecl = s.openRecl ∧
    (advanceOutputTail ok s h).2.1.mayPosition = s.mayPosition ∧
    (advanceOutputTail ok s h).2.1.leftTabLimit = none ∧
    (advanceOutputTail ok s h).2.1.impliedEndfile = true ∧
    IsAfterEndfile (advanceOutputTail ok s h).2.1 = false ∧
    (advanceOutputTail ok s h).2.1.positionInRecord = 0 ∧
    (advanceOutputTail ok s h).2.1.furthestPositionInRecord = 0 ∧
    (advanceOutputTail ok s h).2.1.frameOffsetInFile =
      s.frameOffsetInFile + s.recordOffsetInFrame +
        s.furthestPositionInRecord ∧
    (advanceOutputTail ok s h).2.1.recordOffsetInFrame = 0 ∧
    (advanceOutputTail ok s h).2.1.direction = s.direction := by
  rw [advanceOutputTail]
  have h1 : IsAfterEndfile { s with leftTabLimit := none } = false :=
    (isAfterEndfile_congr _ s rfl rfl).trans hnae
  rw [if_neg (by simp [h1])]
  simp only [CommitWrites, BeginRecord, hrln, Option.getD_none]
  rw [if_pos (by simpa using hacc)]
  cases hend : s.endfileRecordNumber with
  | none =>
    rw [if_neg (by simp [IsAtEOF, hend])]
    refine ⟨rfl, rfl, rfl, rfl, rfl, rfl, ?_, ?_, rfl, rfl, rfl, rfl, rfl⟩
    · exact (isRecordFile_congr _ s rfl rfl).trans hrf
    · simp [IsAfterEndfile, hend]
  | some e =>
    by_cases heof : e ≤ s.currentRecordNumber + 1
    · rw [if_pos (by simp [IsAtEOF, hend]; exact heof)]
      refine ⟨rfl, rfl, rfl, rfl, rfl, rfl, ?_, ?_, rfl, rfl, rfl, rfl, rfl⟩
      · exact (isRecordFile_congr _ s rfl rfl).trans hrf
      · simp [IsAfterEndfile]
    · rw [if_neg (by simp [IsAtEOF, hend]; omega)]
      refine ⟨rfl, rfl, rfl, rfl, rfl, rfl, ?_, ?_, rfl, rfl, rfl, rfl, rfl⟩
      · exact (isRecordFile_congr _ s rfl rfl).trans hrf
      · simp [IsAfterEndfile, hend]
        omega

/-- Concrete instantiation of
`C9_set_variable_formatted_record_length_empty`: a frame whose record
starts directly with a newline (and holds a carriage return just before
the record start, which must not be consulted) yields an empty record. -/
theorem C9_set_variable_formatted_record_length_witness :
    SetVariableFormattedRecordLength
        { access := Access.Sequential, direction := Direction.Input,
          isUnformatted := some false, recordOffsetInFrame := 1,
          frameLen := 3, file := fun i => if i = 0 then 13 else 10 } =
      (true,
       { access := Access.Sequential, direction := Direction.Input,
         isUnformatted := some false, recordOffsetInFrame := 1,
         frameLen := 3, file := fun i => if i = 0 then 13 else 10,
         recordLength := some 0 }) := by
  rw [C9_set_variable_formatted_record_length_empty _ rfl (by decide)
    (by decide) (by decide)]

end FlangRt

namespace FlangRt

/-- One `Emit` of `n ≥ 1` bytes followed by the output tail: the record
number steps by one and the unit ends up strictly past file offset zero,
whether or not the emit overruns, provided a failure implies the
high-water mark was already positive. -/
theorem emit_tail_shape (t : UnitState) (h : Iostat) (d : Nat → Nat)
    (n eb : Nat)
    (hrl : t.recordLength = none) (hnae : IsAfterEndfile t = false)
    (hacc : ¬ t.access = Access.Direct) (hrf : IsRecordFile t = true)
    (hnc : ¬ h = Iostat.Crash)
    (hpos : 0 < t.furthestPositionInRecord ∨
      (t.positionInRecord = t.furthestPositionInRecord ∧
        ∀ r, t.openRecl = some r → (n : Int) ≤ emitExtra t + r))
    (hn : 1 ≤ n)
    (hF : 0 ≤ t.frameOffsetInFile) (hro : 0 ≤ t.recordOffsetInFrame)
    (hfp : 0 ≤ t.furthestPositionInRecord) :
    (advanceOutputTail (Emit t h d n eb).1 (Emit t h d n eb).2.1
        (Emit t h d n eb).2.2).2.1.currentRecordNumber =
      t.currentRecordNumber + 1 ∧
    (advanceOutputTail (Emit t h d n eb).1 (Emit t h d n eb).2.1
        (Emit t h d n eb).2.2).2.1.access = t.access ∧
    (advanceOutputTail (Emit t h d n eb).1 (Emit t h d n eb).2.1
        (Emit t h d n eb).2.2).2.1.isUnformatted = t.isUnformatted ∧
    (advanceOutputTail (Emit t h d n eb).1 (Emit t h d n eb).2.1
        (Emit t h d n eb).2.2).2.1.leftTabLimit = none ∧
    (advanceOutputTail (Emit t h d n eb).1 (Emit t h d n eb).2.1
        (Emit t h d n eb).2.2).2.1.impliedEndfile = true ∧
    IsAfterEndfile (advanceOutputTail (Emit t h d n eb).1
        (Emit t h d n eb).2.1 (Emit t h d n eb).2.2).2.1 = false ∧
    (advanceOutputTail (Emit t h d n eb).1 (Emit t h d n eb).2.1
        (Emit t h d n eb).2.2).2.1.positionInRecord = 0 ∧
    (advanceOutputTail (Emit t h d n eb).1 (Emit t h d n eb).2.1
        (Emit t h d n eb).2.2).2.1.furthestPositionInRecord = 0 ∧
    0 < (advanceOutputTail (Emit t h d n eb).1 (Emit t h d n eb).2.1
        (Emit t h d n eb).2.2).2.1.frameOffsetInFile +
      (advanceOutputTail (Emit t h d n eb).1 (Emit t h d n eb).2.1
        (Emit t h d n eb).2.2).2.1.recordOffsetInFrame := by
  obtain ⟨hfail, hsucc⟩ := emit_nondirect t h d n eb hrl hnae hacc hnc
  have hE : (Emit t h d n eb).2.1.currentRecordNumber =
        t.currentRecordNumber ∧
      (Emit t h d n eb).2.1.access = t.access ∧
      (Emit t h d n eb).2.1.isUnformatted = t.isUnformatted ∧
      (Emit t h d n eb).2.1.recordLength = none ∧
      (Emit t h d n eb).2.1.endfileRecordNumber = t.endfileRecordNumber ∧
      (Emit t h d n eb).2.1.frameOffsetInFile = t.frameOffsetInFile ∧
      (Emit t h d n eb).2.1.recordOffsetInFrame = t.recordOffsetInFrame ∧
      0 < (Emit t h d n eb).2.1.furthestPositionInRecord := by
    by_cases hok : (Emit t h d n eb).1 = true
    · obtain ⟨hh2, ha2, hd2, hu2, hor2, hrl2, he2, hc2, hl2, hi2, hfo2, hro2,
        hmp2, hwn2, hwt2, hp2, hf2⟩ := hsucc hok
      refine ⟨hc2, ha2, hu2, hrl2, he2, hfo2, hro2, ?_⟩
      rw [hf2]
      rcases hpos with hp | ⟨hpf, -⟩
      · omega
      · rw [hpf]; omega
    · obtain ⟨hstate, r, hrecl, hlt⟩ := hfail (by simpa using hok)
      rw [hstate]
      refine ⟨rfl, rfl, rfl, hrl, rfl, rfl, rfl, ?_⟩
      rcases hpos with hp | ⟨hpf, hp⟩
      · exact hp
      · rw [hpf] at hlt
        have := hp r hrecl
        omega
  obtain ⟨hc2, ha2, hu2, hrl2, he2, hfo2, hro2, hf2⟩ := hE
  obtain ⟨hT1, hT2, hT3, hT4, hT5, hT6, hT7, hT8, hT9, hT10, hT11, hT12,
    hT13⟩ := advanceOutputTail_shape (Emit t h d n eb).1 (Emit t h d n eb).2.1
      (Emit t h d n eb).2.2
      (by rw [ha2]; exact hacc)
      ((isRecordFile_congr _ t ha2 hu2).trans hrf)
      ((isAfterEndfile_congr _ t he2 hc2).trans hnae)
      hrl2
  refine ⟨hT1.trans (by rw [hc2]), hT2.trans ha2, hT3.trans hu2, hT6, hT7,
    hT8, hT9, hT10, ?_⟩
  rw [hT11, hT12, hfo2, hro2]
  omega

/-- The shape of a successful-or-failing output `AdvanceRecord` on a
non-direct record file that is not positioned after an endfile, with a
fresh handler: the record number steps by one, the non-advancing limit is
clear, an implied endfile is pending, the unit is not after an endfile,
and the committed position is strictly past file offset zero. -/
theorem advanceRecord_output_shape (s : UnitState) (b : Bool)
    (hdir : s.direction = Direction.Output)
    (hacc : ¬ s.access = Access.Direct)
    (hrf : IsRecordFile s = true)
    (hunf : s.isUnformatted = some b)
    (hnae : IsAfterEndfile s = false)
    (hrl : s.recordLength = none)
    (hF : 0 ≤ s.frameOffsetInFile) (hro : 0 ≤ s.recordOffsetInFrame)
    (hfp : 0 ≤ s.furthestPositionInRecord)
    (hreclpos : ∀ r, s.openRecl = some r → 0 < r)
    (hstream : s.access = Access.Stream → s.openRecl = none) :
    (AdvanceRecord s Iostat.Ok).2.1.currentRecordNumber =
      s.currentRecordNumber + 1 ∧
    (AdvanceRecord s Iostat.Ok).2.1.access = s.access ∧
    (AdvanceRecord s Iostat.Ok).2.1.isUnformatted = some b ∧
    (AdvanceRecord s Iostat.Ok).2.1.leftTabLimit = none ∧
    (AdvanceRecord s Iostat.Ok).2.1.impliedEndfile = true ∧
    IsAfterEndfile (AdvanceRecord s Iostat.Ok).2.1 = false ∧
    (AdvanceRecord s Iostat.Ok).2.1.positionInRecord = 0 ∧
    (AdvanceRecord s Iostat.Ok).2.1.furthestPositionInRecord = 0 ∧
    0 < (AdvanceRecord s Iostat.Ok).2.1.frameOffsetInFile +
      (AdvanceRecord s Iostat.Ok).2.1.recordOffsetInFrame := by
  rw [AdvanceRecord, if_neg (show ¬ s.direction = Direction.Input by
    rw [hdir]; intro hc; cases hc)]
  simp only [hunf]
  cases b with
  | true =>
    have hseq : s.access = Access.Sequential := by
      cases hA : s.access
      · rfl
      · exact absurd hA hacc
      · rw [IsRecordFile, hA, hunf] at hrf; simp at hrf
    rw [if_neg (show ¬ (UnitState.access { s with
        positionInRecord := s.furthestPositionInRecord }) = Access.Direct from
      by simpa using hacc)]
    rw [if_pos rfl]
    rw [if_pos hseq]
    set w : Nat := ((s.furthestPositionInRecord - 4) % (2 ^ 32 : Int)).toNat
      with hw
    set s' : UnitState :=
      { s with
        isUnformatted := some true
        positionInRecord := s.furthestPositionInRecord } with hs'
    have hrl' : s'.recordLength = none := hrl
    have hnae' : IsAfterEndfile s' = false :=
      (isAfterEndfile_congr s' s rfl rfl).trans hnae
    have hacc' : ¬ s'.access = Access.Direct := hacc
    obtain ⟨hfail1, hsucc1⟩ :=
      emit_nondirect s' Iostat.Ok (word32le w) 4 4 hrl' hnae' hacc' (by decide)
    by_cases hok1 : (Emit s' Iostat.Ok (word32le w) 4 4).1 = true
    · rw [if_pos hok1]
      obtain ⟨hh2, ha2, hd2, hu2, hor2, hrl2, he2, hc2, hl2, hi2, hfo2, hro2,
        hmp2, hwn2, hwt2, hp2, hf2⟩ := hsucc1 hok1
      rw [hh2]
      set s2' : UnitState := { (Emit s' Iostat.Ok (word32le w) 4 4).2.1 with
        positionInRecord := 0 } with hs2'
      have hfur2 : s2'.furthestPositionInRecord =
          s.furthestPositionInRecord + 4 := by
        show (Emit s' Iostat.Ok (word32le w) 4 4).2.1.furthestPositionInRecord = _
        rw [hf2]
        show max s.furthestPositionInRecord
          (s.furthestPositionInRecord + ((4 : Nat) : Int)) = _
        omega
      obtain ⟨hG1, hG2, hG3, hG4, hG5, hG6, hG7, hG8, hG9⟩ :=
        emit_tail_shape s2' Iostat.Ok (word32le w) 4 4
          hrl2
          ((isAfterEndfile_congr s2' s he2 hc2).trans hnae)
          (show ¬ s2'.access = Access.Direct by
            show ¬ (Emit s' Iostat.Ok (word32le w) 4 4).2.1.access = Access.Direct
            rw [ha2]; exact hacc)
          ((isRecordFile_congr s2' s ha2 (hu2.trans hunf.symm)).trans hrf)
          (by decide)
          (Or.inl (by rw [hfur2]; omega))
          (by omega)
          (by show 0 ≤ (Emit s' Iostat.Ok (word32le w) 4 4).2.1.frameOffsetInFile
              rw [hfo2]; exact hF)
          (by show 0 ≤ (Emit s' Iostat.Ok (word32le w) 4 4).2.1.recordOffsetInFrame
              rw [hro2]; exact hro)
          (by rw [hfur2]; omega)
      exact ⟨hG1.trans (by rw [show s2'.currentRecordNumber =
          s.currentRecordNumber from hc2]), hG2.trans ha2,
        hG3.trans hu2, hG4, hG5, hG6, hG7, hG8, hG9⟩
    · rw [if_neg hok1]
      obtain ⟨hstate1, r, hrecl1, hlt1⟩ := hfail1 (by simpa using hok1)
      rw [hstate1]
      have hex : emitExtra s' = 8 := by
        rw [emitExtra, if_pos (show s'.access = Access.Sequential from hseq)]
        rfl
      have hbig : 4 + r < s.furthestPositionInRecord := by
        rw [hex] at hlt1
        have h5 : s'.furthestPositionInRecord ⊔
            (s'.positionInRecord + ((4 : Nat) : Int)) =
            s.furthestPositionInRecord + 4 := by
          show s.furthestPositionInRecord ⊔
            (s.furthestPositionInRecord + ((4 : Nat) : Int)) = _
          omega
        rw [h5] at hlt1
        omega
      obtain ⟨hT1, hT2, hT3, hT4, hT5, hT6, hT7, hT8, hT9, hT10, hT11, hT12,
        hT13⟩ := advanceOutputTail_shape false
          { s' with positionInRecord := 0 }
          (Emit s' Iostat.Ok (word32le w) 4 4).2.2
          (show ¬ ({ s' with positionInRecord := 0 } : UnitState).access =
            Access.Direct from hacc)
          ((isRecordFile_congr { s' with positionInRecord := 0 } s rfl
            hunf.symm).trans hrf)
          ((isAfterEndfile_congr { s' with positionInRecord := 0 } s rfl
            rfl).trans hnae)
          hrl
      refine ⟨hT1, hT2, hT3, hT6, hT7, hT8, hT9, hT10, ?_⟩
      rw [hT11, hT12]
      show 0 < s.frameOffsetInFile + s.recordOffsetInFrame +
        s.furthestPositionInRecord + 0
      have hrpos : 0 < r := hreclpos r hrecl1
      omega
  | false =>
    rw [if_neg (show ¬ (UnitState.access { s with
        positionInRecord := s.furthestPositionInRecord }) = Access.Direct from
      by simpa using hacc)]
    rw [if_neg (show ¬ false = true by simp)]
    rw [if_neg (show ¬ ((!decide True) = true ∧
      s.furthestPositionInRecord = 0) by simp)]
    set s' : UnitState :=
      { s with
        isUnformatted := some false
        positionInRecord := s.furthestPositionInRecord } with hs'
    have hrf' : IsRecordFile s' = true :=
      (isRecordFile_congr s' s rfl hunf.symm).trans hrf
    have hnae' : IsAfterEndfile s' = false :=
      (isAfterEndfile_congr s' s rfl rfl).trans hnae
    by_cases hwin : s.isWindows = true ∧ (!s.isWindowsTextFileFlag) = true
    · rw [if_pos hwin, if_pos hwin]
      have hex : ∀ r, s'.openRecl = some r →
          (((2 : Nat) : Int)) ≤ emitExtra s' + r := by
        intro r hr
        have hrp : 0 < r := hreclpos r hr
        cases hA : s.access with
        | Sequential =>
          have he2 : emitExtra s' = 2 := by
            rw [emitExtra, if_pos (show s'.access = Access.Sequential from hA),
              if_neg (show ¬ (UnitState.isUnformatted s').getD false = true
                from by simp), if_pos hwin]
          rw [he2]
          omega
        | Direct => exact absurd hA hacc
        | Stream =>
          have h0 : s.openRecl = none := hstream hA
          rw [show UnitState.openRecl s' = s.openRecl from rfl, h0] at hr
          simp at hr
      obtain ⟨hG1, hG2, hG3, hG4, hG5, hG6, hG7, hG8, hG9⟩ :=
        emit_tail_shape s' Iostat.Ok (fun j => if j = 0 then 13 else 10) 2 1
          hrl hnae' hacc hrf' (by decide) (Or.inr ⟨rfl, hex⟩) (by omega)
          hF hro hfp
      exact ⟨hG1, hG2, hG3, hG4, hG5, hG6, hG7, hG8, hG9⟩
    · rw [if_neg hwin, if_neg hwin]
      have hex : ∀ r, s'.openRecl = some r →
          (((1 : Nat) : Int)) ≤ emitExtra s' + r := by
        intro r hr
        have hrp : 0 < r := hreclpos r hr
        cases hA : s.access with
        | Sequential =>
          have he2 : emitExtra s' = 1 := by
            rw [emitExtra, if_pos (show s'.access = Access.Sequential from hA),
              if_neg (show ¬ (UnitState.isUnformatted s').getD false = true
                from by simp), if_neg hwin]
          rw [he2]
          omega
        | Direct => exact absurd hA hacc
        | Stream =>
          have h0 : s.openRecl = none := hstream hA
          rw [show UnitState.openRecl s' = s.openRecl from rfl, h0] at hr
          simp at hr
      obtain ⟨hG1, hG2, hG3, hG4, hG5, hG6, hG7, hG8, hG9⟩ :=
        emit_tail_shape s' Iostat.Ok (fun x => 10) 1 1
          hrl hnae' hacc hrf' (by decide) (Or.inr ⟨rfl, hex⟩) (by omega)
          hF hro hfp
      exact ⟨hG1, hG2, hG3, hG4, hG5, hG6, hG7, hG8, hG9⟩

end FlangRt

namespace FlangRt

theorem backspaceVariableUnformattedRecord_current (s : UnitState)
    (h : Iostat) :
    ((BackspaceVariableUnformattedRecord s h).1).currentRecordNumber =
      s.currentRecordNumber := by
  simp only [BackspaceVariableUnformattedRecord, ReadFrame]
  split_ifs <;> rfl

theorem backspaceFmtLoop_current (prevNL : Int) :
    ∀ (fuel : Nat) (s : UnitState) (h : Iostat),
      (backspaceFmtLoop prevNL s h fuel).1.currentRecordNumber =
        s.currentRecordNumber := by
  intro fuel
  induction fuel with
  | zero => intro s h; rfl
  | succ n ih =>
    intro s h
    rw [backspaceFmtLoop]
    by_cases h1 : s.frameOffsetInFile < prevNL
    · rw [if_pos h1]
      cases hFL : FindLastNewline (fun j => s.file (s.frameAt + (j : Int)))
          (prevNL - 1 - s.frameOffsetInFile).toNat with
      | some p => rfl
      | none =>
        simp only [ReadFrame]
        split_ifs
        · rfl
        · rfl
        · exact ih _ _
    · rw [if_neg h1]
      simp only [ReadFrame]
      split_ifs
      · rfl
      · rfl
      · exact ih _ _

theorem backspaceVariableFormattedRecord_current (s : UnitState) (h : Iostat) :
    ((BackspaceVariableFormattedRecord s h).1).currentRecordNumber =
      s.currentRecordNumber := by
  rw [BackspaceVariableFormattedRecord]
  split_ifs with h1
  · rfl
  · have hloop := backspaceFmtLoop_current
      (s.frameOffsetInFile + s.recordOffsetInFrame - 1)
      (s.frameOffsetInFile.toNat + 2) s h
    rcases hL : backspaceFmtLoop (s.frameOffsetInFile + s.recordOffsetInFrame - 1)
        s h (s.frameOffsetInFile.toNat + 2) with ⟨s2, h2, ok⟩
    rw [hL] at hloop
    cases ok
    · exact hloop
    · dsimp only
      split_ifs <;> exact hloop

/-- `DoImpliedEndfile` on a unit whose implied endfile is pending, with no
non-advancing limit, at the start of a fresh record: the record number,
access, formatting, record length, and file position are unchanged. -/
theorem doImpliedEndfile_shape (t : UnitState)
    (himp : t.impliedEndfile = true) (hltl : t.leftTabLimit = none)
    (hpos0 : t.positionInRecord = 0) (hfur0 : t.furthestPositionInRecord = 0) :
    (DoImpliedEndfile t Iostat.Ok).1.currentRecordNumber =
      t.currentRecordNumber ∧
    (DoImpliedEndfile t Iostat.Ok).1.access = t.access ∧
    (DoImpliedEndfile t Iostat.Ok).1.isUnformatted = t.isUnformatted ∧
    (DoImpliedEndfile t Iostat.Ok).1.frameOffsetInFile +
        (DoImpliedEndfile t Iostat.Ok).1.recordOffsetInFrame =
      t.frameOffsetInFile + t.recordOffsetInFrame := by
  rw [DoImpliedEndfile]
  rw [if_neg (by simp [himp])]
  try dsimp only
  rw [if_pos himp]
  try dsimp only
  by_cases hcond : (!decide (t.access = Access.Direct)) = true ∧
      IsRecordFile { t with impliedEndfile := false } = true ∧
      t.mayPosition = true
  · rw [if_pos hcond]
    rw [DoEndfile]
    rw [if_pos (by
      simp only [Bool.and_eq_true]
      exact ⟨hcond.2.1, hcond.1⟩)]
    try dsimp only
    rw [if_neg (by simp [hltl])]
    try dsimp only
    rw [FlushOutput]
    rw [if_neg (by simp [hcond.2.2])]
    simp only [Flush, Truncate, TruncateFrame, BeginRecord]
    refine ⟨trivial, trivial, trivial, ?_⟩
    show t.frameOffsetInFile + t.recordOffsetInFrame +
      (max t.positionInRecord t.furthestPositionInRecord) + 0 =
      t.frameOffsetInFile + t.recordOffsetInFrame
    omega
  · rw [if_neg hcond]
    exact ⟨rfl, rfl, rfl, rfl⟩

end FlangRt

namespace FlangRt

/-- C4 as amended: for every non-direct record-file unit in Output
direction that is not currently positioned after an endfile record, whose
formatting is established, with no stale input record length, nonnegative
file offsets, a positive record length whenever one is set (none on a
stream unit), and a fresh handler, calling `AdvanceRecord` and then
`BackspaceRecord` restores `currentRecordNumber` to its value before the
advance. -/
theorem C4_amended_advance_backspace_restores (s : UnitState) (b : Bool)
    (hdir : s.direction = Direction.Output)
    (hacc : ¬ s.access = Access.Direct)
    (hrf : IsRecordFile s = true)
    (hunf : s.isUnformatted = some b)
    (hnae : IsAfterEndfile s = false)
    (hrl : s.recordLength = none)
    (hF : 0 ≤ s.frameOffsetInFile) (hro : 0 ≤ s.recordOffsetInFrame)
    (hfp : 0 ≤ s.furthestPositionInRecord)
    (hreclpos : ∀ r, s.openRecl = some r → 0 < r)
    (hstream : s.access = Access.Stream → s.openRecl = none) :
    ((BackspaceRecord (AdvanceRecord s Iostat.Ok).2.1
        Iostat.Ok).1).currentRecordNumber = s.currentRecordNumber := by
  obtain ⟨hA1, hA2, hA3, hA4, hA5, hA6, hA7, hA8, hA9⟩ :=
    advanceRecord_output_shape s b hdir hacc hrf hunf hnae hrl hF hro hfp
      hreclpos hstream
  set t := (AdvanceRecord s Iostat.Ok).2.1 with ht
  rw [BackspaceRecord]
  rw [if_neg (by
    rintro (hD | hNR)
    · rw [hA2] at hD; exact hacc hD
    · rw [(isRecordFile_congr t s hA2 (hA3.trans hunf.symm)).trans hrf] at hNR
      simp at hNR)]
  rw [if_neg (by simp [hA6])]
  rw [if_neg (by simp [hA4])]
  obtain ⟨hD1, hD2, hD3, hD4⟩ := doImpliedEndfile_shape t hA5 hA4 hA7 hA8
  rcases hDE : DoImpliedEndfile t Iostat.Ok with ⟨u, hu⟩
  rw [hDE] at hD1 hD2 hD3 hD4
  try dsimp only
  rw [if_pos (show u.frameOffsetInFile + u.recordOffsetInFrame > 0 by
    show 0 < u.frameOffsetInFile + u.recordOffsetInFrame
    rw [show (u, hu).1.frameOffsetInFile + (u, hu).1.recordOffsetInFrame =
        t.frameOffsetInFile + t.recordOffsetInFrame from hD4]
    exact hA9)]
  rw [if_neg (by
    rintro ⟨-, hD⟩
    rw [show ({ u with currentRecordNumber := u.currentRecordNumber - 1 } :
        UnitState).access = t.access from hD2] at hD
    rw [hA2] at hD
    exact hacc hD)]
  have hu3 : ({ u with currentRecordNumber := u.currentRecordNumber - 1} :
      UnitState).isUnformatted = some b := by
    rw [show ({ u with currentRecordNumber := u.currentRecordNumber - 1} :
      UnitState).isUnformatted = t.isUnformatted from hD3, hA3]
  have hcur : u.currentRecordNumber = s.currentRecordNumber + 1 := by
    rw [show u.currentRecordNumber = t.currentRecordNumber from hD1, hA1]
  cases b with
  | true =>
    rw [hu3]
    try dsimp only
    rw [if_pos rfl]
    show ((BackspaceVariableUnformattedRecord
        { u with isUnformatted := some true,
                 currentRecordNumber := u.currentRecordNumber - 1 }
        hu).1).currentRecordNumber = s.currentRecordNumber
    rw [backspaceVariableUnformattedRecord_current]
    show u.currentRecordNumber - 1 = s.currentRecordNumber
    omega
  | false =>
    rw [hu3]
    try dsimp only
    rw [if_neg (by simp)]
    show ((BackspaceVariableFormattedRecord
        { u with isUnformatted := some false,
                 currentRecordNumber := u.currentRecordNumber - 1 }
        hu).1).currentRecordNumber = s.currentRecordNumber
    rw [backspaceVariableFormattedRecord_current]
    show u.currentRecordNumber - 1 = s.currentRecordNumber
    omega

/-- A sequential formatted output unit positioned after an endfile record:
record 2 is current, the endfile record is record 1, and data sits before
the file position. -/
def afterEndfileUnit : UnitState :=
  { access := Access.Sequential, direction := Direction.Output,
    isUnformatted := some false, endfileRecordNumber := some 1,
    currentRecordNumber := 2, frameOffsetInFile := 5 }

/-- C4 counterexample: on a non-direct record-file output unit positioned
after an endfile record, `AdvanceRecord` then `BackspaceRecord` does not
restore `currentRecordNumber` — the backspace jumps straight to the
endfile record number instead. -/
theorem C4_counterexample :
    ¬ ((BackspaceRecord (AdvanceRecord afterEndfileUnit Iostat.Ok).2.1
        Iostat.Ok).1).currentRecordNumber =
      afterEndfileUnit.currentRecordNumber ∧
    afterEndfileUnit.access ≠ Access.Direct ∧
    IsRecordFile afterEndfileUnit = true ∧
    afterEndfileUnit.direction = Direction.Output := by
  refine ⟨by decide, by decide, by decide, by decide⟩

/-- A sequential formatted output unit at record 7, with nothing pending
and the frame at the start of the file. -/
def outputRoundTripUnit : UnitState :=
  { access := Access.Sequential, direction := Direction.Output,
    isUnformatted := some false, currentRecordNumber := 7 }

/-- Concrete instantiation of `C4_amended_advance_backspace_restores` on
`outputRoundTripUnit`. -/
theorem C4_amended_witness :
    ((BackspaceRecord (AdvanceRecord outputRoundTripUnit Iostat.Ok).2.1
        Iostat.Ok).1).currentRecordNumber = 7 :=
  C4_amended_advance_backspace_restores outputRoundTripUnit false
    rfl (by decide) rfl rfl rfl rfl (by decide) (by decide) (by decide)
    (fun r hr => by cases hr) (fun _ => rfl)

end FlangRt

namespace FlangRt

/-- One client `Emit` call per chunk of the payload (each chunk a raw byte
transfer of its length), stopping at the first failure. -/
def emitChunks (s : UnitState) (h : Iostat) :
    List (List Nat) → Bool × UnitState × Iostat
  | [] => (true, s, h)
  | c :: cs =>
    let (ok, s, h) := Emit s h (fun j => c.getD j 0) c.length 1
    if ok then emitChunks s h cs else (false, s, h)

/-- Writing one sequential unformatted record: the client emits the payload
chunks into the begun record and then calls `AdvanceRecord`. -/
def writeSeqUnfRecord (s : UnitState) (cs : List (List Nat)) :
    Bool × UnitState × Iostat :=
  let (ok, s, h) := emitChunks s Iostat.Ok cs
  if ok then AdvanceRecord s h else (false, s, h)

/-- Repositioning the unit at file offset `f` for reading back: input
direction, no record begun yet, no known record length, cursors reset. -/
def rewindForRead (s : UnitState) (f : Int) : UnitState :=
  { s with direction := Direction.Input, beganReadingRecord := false,
           recordLength := none, leftTabLimit := none,
           positionInRecord := 0, furthestPositionInRecord := 0,
           recordOffsetInFrame := 0, frameOffsetInFile := f }

/-- Reading the four little-endian bytes of a 32-bit value below `2 ^ 31`
back as an `std::int32_t` recovers the value. -/
theorem int32OfLeBytes_word32le (P : Nat) (hP : P < 2 ^ 31) :
    int32OfLeBytes (word32le P 0) (word32le P 1) (word32le P 2)
      (word32le P 3) = (P : Int) := by
  simp only [int32OfLeBytes, word32le]
  have hu : P / 256 ^ 0 % 256 % 256 + 256 * (P / 256 ^ 1 % 256 % 256) +
      65536 * (P / 256 ^ 2 % 256 % 256) +
      16777216 * (P / 256 ^ 3 % 256 % 256) = P := by
    simp only [pow_zero, pow_one, Nat.div_one]
    norm_num
    omega
  rw [hu]
  rw [if_pos (by omega)]

end FlangRt

namespace FlangRt

/-- One `Emit` of `n` bytes on a sequential unit with no fixed record
length, a clean state, and the cursor at or before the high-water mark:
the transfer succeeds, scalars are preserved, the cursor advances by `n`,
and exactly the `n` bytes at the cursor are overwritten with the data. -/
theorem emit_seq_step (t : UnitState) (d : Nat → Nat) (n eb : Nat)
    (hacc : t.access = Access.Sequential)
    (horl : t.openRecl = none)
    (hrl : t.recordLength = none)
    (hend : t.endfileRecordNumber = none)
    (hswap : t.swapEndianness = false)
    (hpos : t.positionInRecord ≤ t.furthestPositionInRecord) :
    (Emit t Iostat.Ok d n eb).1 = true ∧
    (Emit t Iostat.Ok d n eb).2.2 = Iostat.Ok ∧
    (Emit t Iostat.Ok d n eb).2.1.access = t.access ∧
    (Emit t Iostat.Ok d n eb).2.1.direction = t.direction ∧
    (Emit t Iostat.Ok d n eb).2.1.isUnformatted = t.isUnformatted ∧
    (Emit t Iostat.Ok d n eb).2.1.openRecl = none ∧
    (Emit t Iostat.Ok d n eb).2.1.recordLength = none ∧
    (Emit t Iostat.Ok d n eb).2.1.endfileRecordNumber = none ∧
    (Emit t Iostat.Ok d n eb).2.1.swapEndianness = false ∧
    (Emit t Iostat.Ok d n eb).2.1.recordOffsetInFrame =
      t.recordOffsetInFrame ∧
    (Emit t Iostat.Ok d n eb).2.1.frameOffsetInFile = t.frameOffsetInFile ∧
    (Emit t Iostat.Ok d n eb).2.1.positionInRecord =
      t.positionInRecord + (n : Int) ∧
    (Emit t Iostat.Ok d n eb).2.1.furthestPositionInRecord =
      max t.furthestPositionInRecord (t.positionInRecord + (n : Int)) ∧
    (Emit t Iostat.Ok d n eb).2.1.fileSize =
      max t.fileSize (t.frameOffsetInFile + t.recordOffsetInFrame +
        t.positionInRecord + (n : Int)) ∧
    (∀ i : Int,
      (i < t.frameOffsetInFile + t.recordOffsetInFrame + t.positionInRecord ∨
        t.frameOffsetInFile + t.recordOffsetInFrame + t.positionInRecord +
          (n : Int) ≤ i) →
      (Emit t Iostat.Ok d n eb).2.1.file i = t.file i) ∧
    (∀ j : Nat, j < n →
      (Emit t Iostat.Ok d n eb).2.1.file
        (t.frameOffsetInFile + t.recordOffsetInFrame + t.positionInRecord +
          (j : Int)) = d j) := by
  have hov : emitOverrun t
      (max t.furthestPositionInRecord (t.positionInRecord + (n : Int))) =
      false := by
    rw [emitOverrun, horl]
  have hae : IsAfterEndfile t = false := by rw [IsAfterEndfile, hend]
  have hcda : (CheckDirectAccess t Iostat.Ok).2 = Iostat.Ok := by
    rw [CheckDirectAccess, if_neg (by rw [hacc]; intro hc; cases hc)]
  simp only [Emit, hov, hrl, hae, hcda, Option.isSome_none,
    Bool.false_eq_true, if_false]
  rw [if_neg (by decide)]
  simp only [WriteFrame, storeBytes, swapFileRegion, hswap,
    Bool.false_eq_true, if_false]
  rw [if_neg (show ¬ t.positionInRecord > t.furthestPositionInRecord by
    omega)]
  try dsimp only
  simp only [Bool.false_eq_true, if_false]
  refine ⟨trivial, trivial, trivial, trivial, trivial, horl, hrl, hend,
    trivial, trivial, trivial, trivial, trivial, trivial, ?_, ?_⟩
  · intro i hi
    rw [if_neg (by rintro ⟨h1, h2⟩; omega)]
  · intro j hj
    rw [if_pos (by constructor <;> omega)]
    congr 1
    omega

end FlangRt

namespace FlangRt

/-- Emitting a list of chunks on a sequential unit with no fixed record
length and the cursor at the high-water mark: every transfer succeeds,
scalars are preserved, the cursor and high-water mark advance by the total
payload length, and the payload bytes land contiguously at the cursor. -/
theorem emitChunks_ok (cs : List (List Nat)) :
    ∀ t : UnitState,
    t.access = Access.Sequential →
    t.openRecl = none →
    t.recordLength = none →
    t.endfileRecordNumber = none →
    t.swapEndianness = false →
    t.positionInRecord = t.furthestPositionInRecord →
    (emitChunks t Iostat.Ok cs).1 = true ∧
    (emitChunks t Iostat.Ok cs).2.2 = Iostat.Ok ∧
    (emitChunks t Iostat.Ok cs).2.1.access = t.access ∧
    (emitChunks t Iostat.Ok cs).2.1.direction = t.direction ∧
    (emitChunks t Iostat.Ok cs).2.1.isUnformatted = t.isUnformatted ∧
    (emitChunks t Iostat.Ok cs).2.1.openRecl = none ∧
    (emitChunks t Iostat.Ok cs).2.1.recordLength = none ∧
    (emitChunks t Iostat.Ok cs).2.1.endfileRecordNumber = none ∧
    (emitChunks t Iostat.Ok cs).2.1.swapEndianness = false ∧
    (emitChunks t Iostat.Ok cs).2.1.recordOffsetInFrame =
      t.recordOffsetInFrame ∧
    (emitChunks t Iostat.Ok cs).2.1.frameOffsetInFile =
      t.frameOffsetInFile ∧
    (emitChunks t Iostat.Ok cs).2.1.positionInRecord =
      t.positionInRecord + (cs.flatten.length : Int) ∧
    (emitChunks t Iostat.Ok cs).2.1.furthestPositionInRecord =
      t.furthestPositionInRecord + (cs.flatten.length : Int) ∧
    (∀ i : Int,
      (i < t.frameOffsetInFile + t.recordOffsetInFrame + t.positionInRecord ∨
        t.frameOffsetInFile + t.recordOffsetInFrame + t.positionInRecord +
          (cs.flatten.length : Int) ≤ i) →
      (emitChunks t Iostat.Ok cs).2.1.file i = t.file i) ∧
    (∀ j : Nat, j < cs.flatten.length →
      (emitChunks t Iostat.Ok cs).2.1.file
        (t.frameOffsetInFile + t.recordOffsetInFrame + t.positionInRecord +
          (j : Int)) = cs.flatten.getD j 0) := by
  induction cs with
  | nil =>
    intro t h1 h2 h3 h4 h5 h6
    refine ⟨rfl, rfl, rfl, rfl, rfl, h2, h3, h4, h5, rfl, rfl, ?_, ?_, ?_, ?_⟩
    · show t.positionInRecord = t.positionInRecord + _
      simp
    · show t.furthestPositionInRecord = t.furthestPositionInRecord + _
      simp
    · intro i _
      rfl
    · intro j hj
      simp at hj
  | cons c cs ih =>
    intro t h1 h2 h3 h4 h5 h6
    obtain ⟨e1, e2, e3, e4, e5, e6, e7, e8, e9, e10, e11, e12, e13, e14, e15,
      e16⟩ := emit_seq_step t (fun j => c.getD j 0) c.length 1 h1 h2 h3 h4 h5
        (by omega)
    have hlen : ((c :: cs).flatten.length : Int) =
        (c.length : Int) + (cs.flatten.length : Int) := by
      rw [List.flatten_cons, List.length_append]
      push_cast
      ring
    have hunfold : emitChunks t Iostat.Ok (c :: cs) =
        emitChunks (Emit t Iostat.Ok (fun j => c.getD j 0) c.length 1).2.1
          (Emit t Iostat.Ok (fun j => c.getD j 0) c.length 1).2.2 cs := by
      show (match Emit t Iostat.Ok (fun j => c.getD j 0) c.length 1 with
        | (ok, s, h) => if ok then emitChunks s h cs else (false, s, h)) = _
      rcases hE : Emit t Iostat.Ok (fun j => c.getD j 0) c.length 1 with
        ⟨ok, s1, h1'⟩
      rw [hE] at e1
      dsimp only at e1 ⊢
      rw [e1, if_pos rfl]
    rw [hunfold, e2]
    obtain ⟨i1, i2, i3, i4, i5, i6, i7, i8, i9, i10, i11, i12, i13, i14,
      i15⟩ := ih (Emit t Iostat.Ok (fun j => c.getD j 0) c.length 1).2.1
        (e3.trans h1) e6 e7 e8 e9 (by rw [e12, e13]; omega)
    refine ⟨i1, i2, i3.trans e3, i4.trans e4, i5.trans e5, i6, i7, i8, i9,
      i10.trans e10, i11.trans e11, ?_, ?_, ?_, ?_⟩
    · rw [i12, e12, hlen]
      ring
    · rw [i13, e13, hlen]
      omega
    · intro i hi
      rw [hlen] at hi
      have hout1 : i < (Emit t Iostat.Ok (fun j => c.getD j 0) c.length
          1).2.1.frameOffsetInFile +
          (Emit t Iostat.Ok (fun j => c.getD j 0) c.length
            1).2.1.recordOffsetInFrame +
          (Emit t Iostat.Ok (fun j => c.getD j 0) c.length
            1).2.1.positionInRecord ∨
          (Emit t Iostat.Ok (fun j => c.getD j 0) c.length
            1).2.1.frameOffsetInFile +
          (Emit t Iostat.Ok (fun j => c.getD j 0) c.length
            1).2.1.recordOffsetInFrame +
          (Emit t Iostat.Ok (fun j => c.getD j 0) c.length
            1).2.1.positionInRecord + (cs.flatten.length : Int) ≤ i := by
        rw [e10, e11, e12]
        rcases hi with hi | hi
        · left; omega
        · right; omega
      have hout2 : i < t.frameOffsetInFile + t.recordOffsetInFrame +
          t.positionInRecord ∨
          t.frameOffsetInFile + t.recordOffsetInFrame + t.positionInRecord +
            (c.length : Int) ≤ i := by
        rcases hi with hi | hi
        · left; exact hi
        · right; omega
      rw [i14 i hout1, e15 i hout2]
    · intro j hj
      rw [List.flatten_cons, List.length_append] at hj
      by_cases hjc : j < c.length
      · have h14 := i14 (t.frameOffsetInFile + t.recordOffsetInFrame +
          t.positionInRecord + (j : Int)) (by rw [e10, e11, e12]; left; omega)
        rw [h14]
        have h16 := e16 j hjc
        rw [h16]
        rw [List.flatten_cons, List.getD_append _ _ _ _ hjc]
      · have h15 := i15 (j - c.length) (by omega)
        rw [e10, e11, e12] at h15
        have heq : (Emit t Iostat.Ok (fun j => c.getD j 0) c.length
            1).2.1.frameOffsetInFile = t.frameOffsetInFile := e11
        have hidx : t.frameOffsetInFile + t.recordOffsetInFrame +
            (t.positionInRecord + (c.length : Int)) +
            ((j - c.length : Nat) : Int) =
            t.frameOffsetInFile + t.recordOffsetInFrame +
            t.positionInRecord + (j : Int) := by
          omega
        rw [hidx] at h15
        rw [h15]
        rw [List.flatten_cons, List.getD_append_right _ _ _ _ (by omega)]

end FlangRt

namespace FlangRt

/-- The output tail of `AdvanceRecord` never touches the file contents, the
file size, the byte-swap flag, the record-length setting of the open, the
access mode, or the formatting, and it passes the success flag and handler
through; with no endfile record number it also leaves none. -/
theorem advanceOutputTail_data (ok : Bool) (s : UnitState) (h : Iostat)
    (hend : s.endfileRecordNumber = none) :
    (advanceOutputTail ok s h).2.1.file = s.file ∧
    (advanceOutputTail ok s h).2.1.fileSize = s.fileSize ∧
    (advanceOutputTail ok s h).2.1.swapEndianness = s.swapEndianness ∧
    (advanceOutputTail ok s h).2.1.openRecl = s.openRecl ∧
    (advanceOutputTail ok s h).2.1.access = s.access ∧
    (advanceOutputTail ok s h).2.1.isUnformatted = s.isUnformatted ∧
    (advanceOutputTail ok s h).2.1.endfileRecordNumber = none ∧
    (advanceOutputTail ok s h).1 = ok ∧
    (advanceOutputTail ok s h).2.2 = h := by
  rw [advanceOutputTail]
  have hae : IsAfterEndfile ({ s with leftTabLimit := none } : UnitState) =
      false := by
    rw [IsAfterEndfile]
    show (match s.endfileRecordNumber with
      | some e => decide (e < s.currentRecordNumber)
      | none => false) = false
    rw [hend]
  rw [if_neg (by rw [hae]; simp)]
  simp only [CommitWrites, BeginRecord]
  split_ifs <;>
    refine ⟨?_, ?_, ?_, ?_, ?_, ?_, ?_, ?_, ?_⟩ <;>
    first
      | rfl
      | trivial

end FlangRt

namespace FlangRt

/-- Output `AdvanceRecord` on a sequential unformatted unit with no fixed
record length, a clean state, and high-water mark `4 + P` (header space
plus payload): it succeeds, writes the little-endian length word `P` over
the four reserved header bytes and as the four footer bytes after the
payload, leaves the payload bytes untouched, and extends the known file
size past the footer. -/
theorem advanceRecord_seq_unf (s : UnitState) (P : Nat)
    (hdir : s.direction = Direction.Output)
    (hacc : s.access = Access.Sequential)
    (hunf : s.isUnformatted = some true)
    (horl : s.openRecl = none)
    (hrl : s.recordLength = none)
    (hend : s.endfileRecordNumber = none)
    (hswap : s.swapEndianness = false)
    (hfur : s.furthestPositionInRecord = 4 + (P : Int))
    (hP : P < 2 ^ 31) :
    (AdvanceRecord s Iostat.Ok).1 = true ∧
    (AdvanceRecord s Iostat.Ok).2.2 = Iostat.Ok ∧
    (AdvanceRecord s Iostat.Ok).2.1.access = s.access ∧
    (AdvanceRecord s Iostat.Ok).2.1.isUnformatted = some true ∧
    (AdvanceRecord s Iostat.Ok).2.1.openRecl = none ∧
    (AdvanceRecord s Iostat.Ok).2.1.endfileRecordNumber = none ∧
    (AdvanceRecord s Iostat.Ok).2.1.swapEndianness = false ∧
    (∀ j : Nat, j < 4 →
      (AdvanceRecord s Iostat.Ok).2.1.file
        (s.frameOffsetInFile + s.recordOffsetInFrame + (j : Int)) =
        word32le P j) ∧
    (∀ j : Nat, j < 4 →
      (AdvanceRecord s Iostat.Ok).2.1.file
        (s.frameOffsetInFile + s.recordOffsetInFrame + 4 + (P : Int) +
          (j : Int)) = word32le P j) ∧
    (∀ i : Int,
      ((s.frameOffsetInFile + s.recordOffsetInFrame + 4 ≤ i ∧
        i < s.frameOffsetInFile + s.recordOffsetInFrame + 4 + (P : Int)) ∨
       i < s.frameOffsetInFile + s.recordOffsetInFrame ∨
       s.frameOffsetInFile + s.recordOffsetInFrame + 8 + (P : Int) ≤ i) →
      (AdvanceRecord s Iostat.Ok).2.1.file i = s.file i) ∧
    s.frameOffsetInFile + s.recordOffsetInFrame + 8 + (P : Int) ≤
      (AdvanceRecord s Iostat.Ok).2.1.fileSize := by
  rw [AdvanceRecord, if_neg (show ¬ s.direction = Direction.Input by
    rw [hdir]; intro hc; cases hc)]
  simp only [hunf]
  rw [if_neg (show ¬ (UnitState.access { s with
      positionInRecord := s.furthestPositionInRecord }) = Access.Direct from
    by simp [hacc])]
  rw [if_pos trivial]
  rw [if_pos hacc]
  set w : Nat := ((s.furthestPositionInRecord - 4) % (2 ^ 32 : Int)).toNat
    with hw
  have hwP : w = P := by
    rw [hw, hfur]
    omega
  rw [hwP]
  set s' : UnitState :=
    { s with
      isUnformatted := some true
      positionInRecord := s.furthestPositionInRecord } with hs'
  obtain ⟨f1, f2, f3, f4, f5, f6, f7, f8, f9, f10, f11, f12, f13, f14, f15,
    f16⟩ := emit_seq_step s' (word32le P) 4 4
      (show s'.access = Access.Sequential from hacc)
      (show s'.openRecl = none from horl)
      (show s'.recordLength = none from hrl)
      (show s'.endfileRecordNumber = none from hend)
      (show s'.swapEndianness = false from hswap)
      (show s'.positionInRecord ≤ s'.furthestPositionInRecord from le_refl _)
  rw [if_pos f1]
  rw [f2]
  set s2' : UnitState := { (Emit s' Iostat.Ok (word32le P) 4 4).2.1 with
    positionInRecord := 0 } with hs2'
  have hfur2 : s2'.furthestPositionInRecord = 8 + (P : Int) := by
    show (Emit s' Iostat.Ok (word32le P) 4 4).2.1.furthestPositionInRecord = _
    rw [f13]
    show max s.furthestPositionInRecord
      (s.furthestPositionInRecord + ((4 : Nat) : Int)) = _
    rw [hfur]
    omega
  obtain ⟨g1, g2, g3, g4, g5, g6, g7, g8, g9, g10, g11, g12, g13, g14, g15,
    g16⟩ := emit_seq_step s2' (word32le P) 4 4
      (show s2'.access = Access.Sequential from f3.trans hacc)
      (show s2'.openRecl = none from f6)
      (show s2'.recordLength = none from f7)
      (show s2'.endfileRecordNumber = none from f8)
      (show s2'.swapEndianness = false from f9)
      (show s2'.positionInRecord ≤ s2'.furthestPositionInRecord by
        rw [hfur2]
        show (0 : Int) ≤ 8 + (P : Int)
        omega)
  obtain ⟨d1, d2, d3, d4, d5, d6, d7, d8, d9⟩ :=
    advanceOutputTail_data (Emit s2' Iostat.Ok (word32le P) 4 4).1
      (Emit s2' Iostat.Ok (word32le P) 4 4).2.1
      (Emit s2' Iostat.Ok (word32le P) 4 4).2.2 g8
  have hF2 : s2'.frameOffsetInFile = s.frameOffsetInFile := f11
  have hR2 : s2'.recordOffsetInFrame = s.recordOffsetInFrame := f10
  have hP2 : s2'.positionInRecord = (0 : Int) := rfl
  have hFp : s'.frameOffsetInFile = s.frameOffsetInFile := rfl
  have hRp : s'.recordOffsetInFrame = s.recordOffsetInFrame := rfl
  have hPp : s'.positionInRecord = 4 + (P : Int) := hfur
  refine ⟨d8.trans g1, d9.trans g2,
    d5.trans (g3.trans (show s2'.access = s.access from f3)),
    d6.trans (g5.trans (show s2'.isUnformatted = some true from f5)),
    d4.trans g6, d7, d3.trans g9, ?_, ?_, ?_, ?_⟩
  · intro j hj
    rw [d1]
    have hg := g16 j hj
    rw [hF2, hR2, hP2] at hg
    have hidx : s.frameOffsetInFile + s.recordOffsetInFrame + (0 : Int) +
        (j : Int) = s.frameOffsetInFile + s.recordOffsetInFrame + (j : Int) :=
      by ring
    rw [hidx] at hg
    exact hg
  · intro j hj
    rw [d1]
    have hg := g15 (s.frameOffsetInFile + s.recordOffsetInFrame + 4 +
      (P : Int) + (j : Int)) (by
        rw [hF2, hR2, hP2]
        right
        omega)
    rw [hg]
    have hf := f16 j hj
    rw [hFp, hRp, hPp] at hf
    have hidx : s.frameOffsetInFile + s.recordOffsetInFrame +
        (4 + (P : Int)) + (j : Int) = s.frameOffsetInFile +
        s.recordOffsetInFrame + 4 + (P : Int) + (j : Int) := by ring
    rw [hidx] at hf
    exact hf
  · intro i hi
    rw [d1]
    have hg := g15 i (by
      rw [hF2, hR2, hP2]
      rcases hi with ⟨hi1, hi2⟩ | hi | hi
      · right; omega
      · left; omega
      · right; omega)
    rw [hg]
    have hf := f15 i (by
      rw [hFp, hRp, hPp]
      rcases hi with ⟨hi1, hi2⟩ | hi | hi
      · left; omega
      · left; omega
      · right; push_cast; omega)
    exact hf
  · rw [d2]
    rw [g14]
    rw [hF2, hR2, hP2]
    have hfs1 : (Emit s' Iostat.Ok (word32le P) 4 4).2.1.fileSize =
        max s.fileSize (s.frameOffsetInFile + s.recordOffsetInFrame +
          (4 + (P : Int)) + ((4 : Nat) : Int)) := by
      rw [f14, hFp, hRp, hPp]
    have hfs2 : s2'.fileSize =
        max s.fileSize (s.frameOffsetInFile + s.recordOffsetInFrame +
          (4 + (P : Int)) + ((4 : Nat) : Int)) := hfs1
    rw [hfs2]
    push_cast
    omega

end FlangRt

namespace FlangRt

/-- `ReadHeaderOrFooter` over four frame bytes holding the little-endian
image of a value below `2 ^ 31`, with no endianness conversion, returns the
value. -/
theorem readHeaderOrFooter_eq (r : UnitState) (off : Int) (P : Nat)
    (hswap : r.swapEndianness = false)
    (hP : P < 2 ^ 31)
    (hb : ∀ j : Nat, j < 4 →
      r.file (r.frameAt + off + (j : Int)) = word32le P j) :
    ReadHeaderOrFooter r off = (P : Int) := by
  rw [ReadHeaderOrFooter]
  simp only [hswap, Bool.false_eq_true, if_false]
  rw [hb 0 (by omega), hb 1 (by omega), hb 2 (by omega), hb 3 (by omega)]
  exact int32OfLeBytes_word32le P hP

end FlangRt

namespace FlangRt

/-- `BeginSequentialVariableUnformattedInputRecord` positioned at a stored
record of payload length `P < 2 ^ 31` (4-byte length word, payload, equal
4-byte length word, all within the known file size): it succeeds, sets
`recordLength` to `4 + P`, leaves the cursor just after the header, and
touches nothing else. -/
theorem bsvuir_read (v : UnitState) (P : Nat)
    (hro : v.recordOffsetInFrame = 0)
    (hswap : v.swapEndianness = false)
    (hP : P < 2 ^ 31)
    (hsz : v.frameOffsetInFile + 8 + (P : Int) ≤ v.fileSize)
    (hhead : ∀ j : Nat, j < 4 →
      v.file (v.frameOffsetInFile + (j : Int)) = word32le P j)
    (hfoot : ∀ j : Nat, j < 4 →
      v.file (v.frameOffsetInFile + 4 + (P : Int) + (j : Int)) =
        word32le P j) :
    (BeginSequentialVariableUnformattedInputRecord v Iostat.Ok).2 =
      Iostat.Ok ∧
    (BeginSequentialVariableUnformattedInputRecord v Iostat.Ok).1.recordLength
      = some (4 + (P : Int)) ∧
    (BeginSequentialVariableUnformattedInputRecord v Iostat.Ok).1.positionInRecord
      = 4 ∧
    (BeginSequentialVariableUnformattedInputRecord v Iostat.Ok).1.furthestPositionInRecord
      = v.furthestPositionInRecord ∧
    (BeginSequentialVariableUnformattedInputRecord v Iostat.Ok).1.direction
      = v.direction ∧
    (BeginSequentialVariableUnformattedInputRecord v Iostat.Ok).1.access
      = v.access ∧
    (BeginSequentialVariableUnformattedInputRecord v Iostat.Ok).1.swapEndianness
      = false ∧
    (BeginSequentialVariableUnformattedInputRecord v Iostat.Ok).1.recordOffsetInFrame
      = v.recordOffsetInFrame ∧
    (BeginSequentialVariableUnformattedInputRecord v Iostat.Ok).1.frameOffsetInFile
      = v.frameOffsetInFile ∧
    (BeginSequentialVariableUnformattedInputRecord v Iostat.Ok).1.file
      = v.file ∧
    (BeginSequentialVariableUnformattedInputRecord v Iostat.Ok).1.fileSize
      = v.fileSize ∧
    (BeginSequentialVariableUnformattedInputRecord v Iostat.Ok).1.frameAt
      = v.frameOffsetInFile ∧
    (BeginSequentialVariableUnformattedInputRecord v Iostat.Ok).1.isUnformatted
      = v.isUnformatted := by
  rw [BeginSequentialVariableUnformattedInputRecord]
  simp only [ReadFrame]
  rw [if_neg (show ¬ (min (v.recordOffsetInFrame + 4)
      (max 0 (v.fileSize - v.frameOffsetInFile)) <
      v.recordOffsetInFrame + 4) by rw [hro]; omega)]
  try dsimp only
  have hhdr : ReadHeaderOrFooter
      ({ v with frameAt := v.frameOffsetInFile,
                frameLen := max 0 (min (v.recordOffsetInFrame + 4)
                  (max 0 (v.fileSize - v.frameOffsetInFile))) } : UnitState)
      v.recordOffsetInFrame = (P : Int) := by
    refine readHeaderOrFooter_eq _ _ P hswap hP ?_
    intro j hj
    show v.file (v.frameOffsetInFile + v.recordOffsetInFrame + (j : Int)) =
      word32le P j
    rw [hro, show v.frameOffsetInFile + 0 + (j : Int) =
      v.frameOffsetInFile + (j : Int) from by ring]
    exact hhead j hj
  simp only [hhdr]
  rw [if_neg (show ¬ (min (v.recordOffsetInFrame + (4 + (P : Int)) + 4)
      (max 0 (v.fileSize - v.frameOffsetInFile)) <
      v.recordOffsetInFrame + (4 + (P : Int)) + 4) by rw [hro]; omega)]
  try dsimp only
  have hftr : ReadHeaderOrFooter
      ({ v with recordLength := some (4 + (P : Int)),
                frameAt := v.frameOffsetInFile,
                frameLen := max 0 (min (v.recordOffsetInFrame +
                  (4 + (P : Int)) + 4)
                  (max 0 (v.fileSize - v.frameOffsetInFile))) } : UnitState)
      (v.recordOffsetInFrame + (4 + (P : Int))) = (P : Int) := by
    refine readHeaderOrFooter_eq _ _ P hswap hP ?_
    intro j hj
    show v.file (v.frameOffsetInFile + (v.recordOffsetInFrame +
      (4 + (P : Int))) + (j : Int)) = word32le P j
    rw [hro, show v.frameOffsetInFile + (0 + (4 + (P : Int))) + (j : Int) =
      v.frameOffsetInFile + 4 + (P : Int) + (j : Int) from by ring]
    exact hfoot j hj
  simp only [hftr]
  rw [if_neg (by simp)]
  try dsimp only
  refine ⟨?_, ?_, ?_, ?_, ?_, ?_, ?_, ?_, ?_, ?_, ?_, ?_, ?_⟩ <;>
    first
      | rfl
      | trivial

end FlangRt

namespace FlangRt

/-- `BeginReadingRecord` on an input-direction sequential unformatted unit
positioned (cursor and record offset reset) at a stored record of payload
length `P < 2 ^ 31`: it succeeds with `recordLength = 4 + P` and the
cursor just after the header, leaving the file data untouched. -/
theorem beginRead_seq_unf (u : UnitState) (P : Nat)
    (hdir : u.direction = Direction.Input)
    (hbeg : u.beganReadingRecord = false)
    (hacc : u.access = Access.Sequential)
    (hunf : u.isUnformatted = some true)
    (hend : u.endfileRecordNumber = none)
    (hro : u.recordOffsetInFrame = 0)
    (hswap : u.swapEndianness = false)
    (hP : P < 2 ^ 31)
    (hsz : u.frameOffsetInFile + 8 + (P : Int) ≤ u.fileSize)
    (hhead : ∀ j : Nat, j < 4 →
      u.file (u.frameOffsetInFile + (j : Int)) = word32le P j)
    (hfoot : ∀ j : Nat, j < 4 →
      u.file (u.frameOffsetInFile + 4 + (P : Int) + (j : Int)) =
        word32le P j) :
    (BeginReadingRecord u Iostat.Ok).1 = true ∧
    (BeginReadingRecord u Iostat.Ok).2.2 = Iostat.Ok ∧
    (BeginReadingRecord u Iostat.Ok).2.1.recordLength = some (4 + (P : Int)) ∧
    (BeginReadingRecord u Iostat.Ok).2.1.positionInRecord = 4 ∧
    (BeginReadingRecord u Iostat.Ok).2.1.furthestPositionInRecord =
      u.furthestPositionInRecord ∧
    (BeginReadingRecord u Iostat.Ok).2.1.direction = Direction.Input ∧
    (BeginReadingRecord u Iostat.Ok).2.1.swapEndianness = false ∧
    (BeginReadingRecord u Iostat.Ok).2.1.recordOffsetInFrame = 0 ∧
    (BeginReadingRecord u Iostat.Ok).2.1.frameOffsetInFile =
      u.frameOffsetInFile ∧
    (BeginReadingRecord u Iostat.Ok).2.1.file = u.file ∧
    (BeginReadingRecord u Iostat.Ok).2.1.fileSize = u.fileSize ∧
    ReadHeaderOrFooter (BeginReadingRecord u Iostat.Ok).2.1 0 = (P : Int) ∧
    ReadHeaderOrFooter (BeginReadingRecord u Iostat.Ok).2.1
      (4 + (P : Int)) = (P : Int) := by
  rw [BeginReadingRecord]
  rw [if_neg (by simp [hdir])]
  rw [if_pos (show (!u.beganReadingRecord) = true by rw [hbeg]; rfl)]
  rw [if_neg (show ¬ ({ u with beganReadingRecord := true } :
      UnitState).access = Access.Direct from by simp [hacc])]
  rw [if_neg (show ¬ IsAtEOF ({ u with beganReadingRecord := true, recordLength := none } : UnitState) = true from by
    rw [IsAtEOF]
    show ¬ (match u.endfileRecordNumber with
      | some e => decide (e ≤ u.currentRecordNumber)
      | none => false) = true
    rw [hend]
    simp)]
  simp only [hunf]
  try dsimp only
  rw [if_pos trivial]
  rw [if_pos hacc]
  obtain ⟨b1, b2, b3, b4, b5, b6, b7, b8, b9, b10, b11, b12, b13⟩ :=
    bsvuir_read ({ u with isUnformatted := some true, beganReadingRecord := true, recordLength := none } :
        UnitState) P hro hswap hP hsz hhead hfoot
  rw [if_pos (Or.inl (show (BeginSequentialVariableUnformattedInputRecord ({ u with isUnformatted := some true, beganReadingRecord := true, recordLength := none } : UnitState) Iostat.Ok).1.recordLength.isSome = true by
    rw [b2]; rfl))]
  refine ⟨by rw [b1]; rfl, b1, b2, b3, b4, b5.trans hdir, b7, b8.trans hro, b9, b10, b11, ?_, ?_⟩
  · refine readHeaderOrFooter_eq _ _ P b7 hP ?_
    intro j hj
    rw [b10, b12]
    have hidx : u.frameOffsetInFile + (0 : Int) + (j : Int) =
        u.frameOffsetInFile + (j : Int) := by ring
    rw [hidx]
    exact hhead j hj
  · refine readHeaderOrFooter_eq _ _ P b7 hP ?_
    intro j hj
    rw [b10, b12]
    have hidx : u.frameOffsetInFile + (4 + (P : Int)) + (j : Int) =
        u.frameOffsetInFile + 4 + (P : Int) + (j : Int) := by ring
    rw [hidx]
    exact hfoot j hj

end FlangRt

namespace FlangRt

/-- `Receive` of the `P` payload bytes of a begun sequential unformatted
record (`recordLength = 4 + P`, cursor just after the header, no
endianness conversion): it succeeds and returns exactly the payload bytes
stored after the 4-byte header. -/
theorem receive_record_payload (r : UnitState) (P : Nat)
    (hdir : r.direction = Direction.Input)
    (hswap : r.swapEndianness = false)
    (hrl : r.recordLength = some (4 + (P : Int)))
    (hpos : r.positionInRecord = 4)
    (hfur : r.furthestPositionInRecord = 0)
    (hro : r.recordOffsetInFrame = 0)
    (hsz : r.frameOffsetInFile + 4 + (P : Int) ≤ r.fileSize) :
    (Receive r Iostat.Ok P 1).1 = true ∧
    (Receive r Iostat.Ok P 1).2.2.2 = Iostat.Ok ∧
    ∀ j : Nat, j < P →
      ((Receive r Iostat.Ok P 1).2.1.getD (fun _ => 0)) j =
        r.file (r.frameOffsetInFile + 4 + (j : Int)) := by
  rw [Receive]
  rw [if_neg (by simp [hdir])]
  rw [show max r.furthestPositionInRecord (r.positionInRecord + (P : Int)) =
    4 + (P : Int) by rw [hpos, hfur]; omega]
  rw [if_neg (show ¬ (4 + (P : Int) >
    (r.recordLength.getD (4 + (P : Int)))) by rw [hrl]; simp)]
  simp only [ReadFrame]
  rw [if_pos (show min (r.recordOffsetInFrame + (4 + (P : Int)))
      (max 0 (r.fileSize - r.frameOffsetInFile)) ≥
      r.recordOffsetInFrame + (4 + (P : Int)) by rw [hro]; omega)]
  try dsimp only
  simp only [hswap, Bool.false_eq_true, if_false]
  refine ⟨trivial, trivial, ?_⟩
  intro j hj
  show r.file (r.frameOffsetInFile + r.recordOffsetInFrame +
    r.positionInRecord + (j : Int)) =
    r.file (r.frameOffsetInFile + 4 + (j : Int))
  rw [hro, hpos]
  congr 1
  ring

end FlangRt

namespace FlangRt

/-- C1: round-trip of sequential unformatted records.  For every payload
written by `Emit` calls within one begun record (header space reserved,
cursor at 4) followed by `AdvanceRecord` on a sequential unformatted
output unit, the stored record is a 4-byte length word `P`, the `P`
payload bytes, and a 4-byte suffix equal to `P`; repositioning the unit at
the record and reading with `BeginReadingRecord` succeeds, sets
`recordLength = 4 + P` with header and footer both reading back as `P`,
and `Receive` yields exactly the `P` payload bytes. -/
theorem C1_seq_unformatted_roundtrip (s : UnitState) (cs : List (List Nat))
    (P : Nat) (hPdef : P = cs.flatten.length)
    (hdir : s.direction = Direction.Output)
    (hacc : s.access = Access.Sequential)
    (hunf : s.isUnformatted = some true)
    (horl : s.openRecl = none)
    (hrl : s.recordLength = none)
    (hend : s.endfileRecordNumber = none)
    (hswap : s.swapEndianness = false)
    (hro : s.recordOffsetInFrame = 0)
    (hpos4 : s.positionInRecord = 4)
    (hfur4 : s.furthestPositionInRecord = 4)
    (hP : P < 2 ^ 31) :
    (writeSeqUnfRecord s cs).1 = true ∧
    (writeSeqUnfRecord s cs).2.2 = Iostat.Ok ∧
    (∀ j : Nat, j < 4 → (writeSeqUnfRecord s cs).2.1.file
      (s.frameOffsetInFile + (j : Int)) = word32le P j) ∧
    (∀ j : Nat, j < P → (writeSeqUnfRecord s cs).2.1.file
      (s.frameOffsetInFile + 4 + (j : Int)) = cs.flatten.getD j 0) ∧
    (∀ j : Nat, j < 4 → (writeSeqUnfRecord s cs).2.1.file
      (s.frameOffsetInFile + 4 + (P : Int) + (j : Int)) = word32le P j) ∧
    (BeginReadingRecord (rewindForRead (writeSeqUnfRecord s cs).2.1
      s.frameOffsetInFile) Iostat.Ok).1 = true ∧
    (BeginReadingRecord (rewindForRead (writeSeqUnfRecord s cs).2.1
      s.frameOffsetInFile) Iostat.Ok).2.2 = Iostat.Ok ∧
    (BeginReadingRecord (rewindForRead (writeSeqUnfRecord s cs).2.1
      s.frameOffsetInFile) Iostat.Ok).2.1.recordLength =
      some (4 + (P : Int)) ∧
    ReadHeaderOrFooter (BeginReadingRecord (rewindForRead
      (writeSeqUnfRecord s cs).2.1 s.frameOffsetInFile) Iostat.Ok).2.1 0 =
      (P : Int) ∧
    ReadHeaderOrFooter (BeginReadingRecord (rewindForRead
      (writeSeqUnfRecord s cs).2.1 s.frameOffsetInFile) Iostat.Ok).2.1
      (4 + (P : Int)) = (P : Int) ∧
    (Receive (BeginReadingRecord (rewindForRead (writeSeqUnfRecord s cs).2.1
      s.frameOffsetInFile) Iostat.Ok).2.1 Iostat.Ok P 1).1 = true ∧
    (Receive (BeginReadingRecord (rewindForRead (writeSeqUnfRecord s cs).2.1
      s.frameOffsetInFile) Iostat.Ok).2.1 Iostat.Ok P 1).2.2.2 =
      Iostat.Ok ∧
    ∀ j : Nat, j < P →
      ((Receive (BeginReadingRecord (rewindForRead
        (writeSeqUnfRecord s cs).2.1 s.frameOffsetInFile) Iostat.Ok).2.1
        Iostat.Ok P 1).2.1.getD (fun _ => 0)) j = cs.flatten.getD j 0 := by
  subst hPdef
  obtain ⟨c1, c2, c3, c4, c5, c6, c7, c8, c9, c10, c11, c12, c13, c14,
    c15⟩ := emitChunks_ok cs s hacc horl hrl hend hswap
      (by rw [hpos4, hfur4])
  have hwrite : writeSeqUnfRecord s cs =
      AdvanceRecord (emitChunks s Iostat.Ok cs).2.1
        (emitChunks s Iostat.Ok cs).2.2 := by
    show (match emitChunks s Iostat.Ok cs with
      | (ok, s, h) => if ok then AdvanceRecord s h else (false, s, h)) = _
    rcases hE : emitChunks s Iostat.Ok cs with ⟨ok, s1, h1⟩
    rw [hE] at c1
    dsimp only at c1 ⊢
    rw [c1, if_pos rfl]
  rw [hwrite, c2]
  set s1 := (emitChunks s Iostat.Ok cs).2.1 with hs1
  obtain ⟨a1, a2, a3, a4, a5, a6, a7, a8, a9, a10, a11⟩ :=
    advanceRecord_seq_unf s1 cs.flatten.length (c4.trans hdir)
      (c3.trans hacc) (c5.trans hunf) c6 c7 c8 c9
      (by rw [c13, hfur4]) hP
  set w := (AdvanceRecord s1 Iostat.Ok).2.1 with hw2
  have hF1 : s1.frameOffsetInFile = s.frameOffsetInFile := c11
  have hR1 : s1.recordOffsetInFrame = (0 : Int) := by rw [c10, hro]
  have hheadW : ∀ j : Nat, j < 4 →
      w.file (s.frameOffsetInFile + (j : Int)) =
        word32le cs.flatten.length j := by
    intro j hj
    have h := a8 j hj
    rw [hF1, hR1] at h
    rw [show s.frameOffsetInFile + 0 + (j : Int) =
      s.frameOffsetInFile + (j : Int) from by ring] at h
    exact h
  have hpayW : ∀ j : Nat, j < cs.flatten.length →
      w.file (s.frameOffsetInFile + 4 + (j : Int)) =
        cs.flatten.getD j 0 := by
    intro j hj
    have hmid := a10 (s.frameOffsetInFile + 4 + (j : Int)) (by
      rw [hF1, hR1]
      left
      constructor <;> omega)
    rw [hmid]
    have hc := c15 j hj
    rw [hro, hpos4] at hc
    rw [show s.frameOffsetInFile + 0 + 4 + (j : Int) =
      s.frameOffsetInFile + 4 + (j : Int) from by ring] at hc
    exact hc
  have hfootW : ∀ j : Nat, j < 4 →
      w.file (s.frameOffsetInFile + 4 + (cs.flatten.length : Int) +
        (j : Int)) = word32le cs.flatten.length j := by
    intro j hj
    have h := a9 j hj
    rw [hF1, hR1] at h
    rw [show s.frameOffsetInFile + 0 + 4 + (cs.flatten.length : Int) +
      (j : Int) = s.frameOffsetInFile + 4 + (cs.flatten.length : Int) +
      (j : Int) from by ring] at h
    exact h
  have hszW : s.frameOffsetInFile + 8 + (cs.flatten.length : Int) ≤
      w.fileSize := by
    have h := a11
    rw [hF1, hR1] at h
    omega
  obtain ⟨r1, r2, r3, r4, r5, r6, r7, r8, r9, r10, r11, r12, r13⟩ :=
    beginRead_seq_unf (rewindForRead w s.frameOffsetInFile)
      cs.flatten.length rfl rfl
      (show (rewindForRead w s.frameOffsetInFile).access =
        Access.Sequential from (a3.trans c3).trans hacc)
      (show (rewindForRead w s.frameOffsetInFile).isUnformatted =
        some true from a4)
      (show (rewindForRead w s.frameOffsetInFile).endfileRecordNumber =
        none from a6)
      rfl
      (show (rewindForRead w s.frameOffsetInFile).swapEndianness =
        false from a7)
      hP
      (show (rewindForRead w s.frameOffsetInFile).frameOffsetInFile + 8 +
        (cs.flatten.length : Int) ≤
        (rewindForRead w s.frameOffsetInFile).fileSize from hszW)
      hheadW hfootW
  set u := rewindForRead w s.frameOffsetInFile with hu
  set rr := (BeginReadingRecord u Iostat.Ok).2.1 with hrr
  obtain ⟨v1, v2, v3⟩ := receive_record_payload rr cs.flatten.length
    r6 r7 r3 r4
    (show rr.furthestPositionInRecord = 0 from r5)
    r8
    (by rw [r9, r11]
        show s.frameOffsetInFile + 4 + (cs.flatten.length : Int) ≤
          w.fileSize
        omega)
  refine ⟨a1, a2, hheadW, hpayW, hfootW, r1, r2, r3, r12, r13, v1, v2, ?_⟩
  intro j hj
  rw [v3 j hj]
  rw [r10, r9]
  exact hpayW j hj

end FlangRt

namespace FlangRt

/-- A sequential unformatted output unit with a freshly begun record: the
four header bytes are reserved, so the cursor and high-water mark are 4. -/
def seqUnfOutputUnit : UnitState :=
  { access := Access.Sequential, direction := Direction.Output,
    isUnformatted := some true, positionInRecord := 4,
    furthestPositionInRecord := 4 }

/-- Concrete instantiation of `C1_seq_unformatted_roundtrip`: the payload
`7, 9, 5` written in two chunks stores the record `3 | 7 9 5 | 3` at file
offset 0 and reads back with record length 7 and payload byte 9 at
position 1. -/
theorem C1_roundtrip_witness :
    (writeSeqUnfRecord seqUnfOutputUnit [[7, 9], [5]]).1 = true ∧
    (writeSeqUnfRecord seqUnfOutputUnit [[7, 9], [5]]).2.1.file 0 = 3 ∧
    (writeSeqUnfRecord seqUnfOutputUnit [[7, 9], [5]]).2.1.file 4 = 7 ∧
    (writeSeqUnfRecord seqUnfOutputUnit [[7, 9], [5]]).2.1.file 7 = 3 ∧
    (BeginReadingRecord (rewindForRead (writeSeqUnfRecord seqUnfOutputUnit
      [[7, 9], [5]]).2.1 seqUnfOutputUnit.frameOffsetInFile)
      Iostat.Ok).2.1.recordLength = some 7 ∧
    ((Receive (BeginReadingRecord (rewindForRead (writeSeqUnfRecord
      seqUnfOutputUnit [[7, 9], [5]]).2.1
      seqUnfOutputUnit.frameOffsetInFile) Iostat.Ok).2.1 Iostat.Ok 3
      1).2.1.getD (fun _ => 0)) 1 = 9 := by
  obtain ⟨h1, h2, h3, h4, h5, h6, h7, h8, h9, h10, h11, h12, h13⟩ :=
    C1_seq_unformatted_roundtrip seqUnfOutputUnit [[7, 9], [5]] 3 rfl rfl rfl
      rfl rfl rfl rfl rfl rfl rfl rfl (by decide)
  refine ⟨h1, ?_, ?_, ?_, ?_, ?_⟩
  · have h := h3 0 (by decide)
    rw [show seqUnfOutputUnit.frameOffsetInFile + ((0 : Nat) : Int) =
      (0 : Int) from by decide] at h
    rw [h]
    decide
  · have h := h4 0 (by decide)
    rw [show seqUnfOutputUnit.frameOffsetInFile + 4 + ((0 : Nat) : Int) =
      (4 : Int) from by decide] at h
    rw [h]
    decide
  · have h := h5 0 (by decide)
    rw [show seqUnfOutputUnit.frameOffsetInFile + 4 + ((3 : Nat) : Int) +
      ((0 : Nat) : Int) = (7 : Int) from by decide] at h
    rw [h]
    decide
  · rw [h8]
    decide
  · have h := h13 1 (by decide)
    rw [h]
    decide

end FlangRt
